import Mathlib

/-!
Shallow embedding of the graph-traversal utilities
(`jac_cloud/jaseci/routers/utils.py`) and of the system-admin creation
command (`jac_cloud/plugin/cli.py`) of the repository, together with
proofs of the specification claims about them.

Machine `ObjectId`s are modelled as `Nat`.  The canonical reference
string `"<kind-prefix>:<name>:<objectid>"` produced by `ref_id` is kept
structured (`RefId` below): its string rendering is injective (the
object-id hex after the last colon determines the id), so nothing is
lost by comparing the structured form.
-/

namespace JacUtil

/-- Kind of a persisted entity reference; fixes the ref-id prefix
(`n` for nodes, `e` for edges). -/
inductive RefKind where
  | node
  | edge
deriving DecidableEq, Repr

/-- A stub anchor reference as stored inside another document: the
referenced object id together with the type tag (`name`) that the
type filters inspect before the referenced document is ever loaded. -/
structure Ref where
  id : Nat
  name : String
deriving DecidableEq, Repr

/-- Structured form of the canonical reference string
`"<kind-prefix>:<name>:<objectid>"` (`BaseAnchor.ref_id`). -/
structure RefId where
  kind : RefKind
  name : String
  id : Nat
deriving DecidableEq, Repr

/-- The `anchor.ref_id` of a stub reference of the given kind. -/
def refIdOf (k : RefKind) (r : Ref) : RefId :=
  ⟨k, r.name, r.id⟩

/-- Permission levels of the access-control model. -/
inductive AccessLevel where
  | NO_ACCESS
  | READ
  | WRITE
deriving DecidableEq, Repr

/-- Access document `{ all, roots: { anchors } }` carried by every
anchor (shape as inserted by `create_system_admin`'s `default_data`
and described in the data model). -/
structure Permission where
  all : AccessLevel
  anchors : List (Nat × AccessLevel)
deriving DecidableEq, Repr

/-- A persisted `NodeAnchor` document: id, type tag, owning root,
access document, serialized archetype payload (what `build_data`
would place under `"archetype"` when `detailed`), and the ordered
list of incident edge references. -/
structure NodeDoc where
  id : Nat
  name : String
  root : Option Nat
  access : Permission
  archetype : String
  edges : List Ref
deriving DecidableEq, Repr

/-- A persisted `EdgeAnchor` document with its source and target
node references. -/
structure EdgeDoc where
  id : Nat
  name : String
  root : Option Nat
  access : Permission
  archetype : String
  source : Ref
  target : Ref
deriving DecidableEq, Repr

/-- A persisted document that is neither a `NodeAnchor` nor an
`EdgeAnchor` (e.g. an `ObjectAnchor`); the traversal rejects it. -/
structure ObjectDoc where
  id : Nat
deriving DecidableEq, Repr

/-- The document store visible to the traversal: one collection per
anchor kind, in natural (insertion) order. -/
structure Graph where
  nodes : List NodeDoc
  edges : List EdgeDoc
  objects : List ObjectDoc
deriving DecidableEq, Repr

/-- Modelled from the spec: the Access Control Evaluator
`effectiveLevel(actingRoot, anchor)` of the specification; its
implementation (`jac_cloud/core/archetype.py`) is not among the
provided sources.  Ownership grants WRITE; an explicit entry in
`access.roots.anchors` overrides; otherwise fall back to `access.all`. -/
def effectiveLevel (actingRoot : Nat) (root : Option Nat)
    (access : Permission) : AccessLevel :=
  if root = some actingRoot then .WRITE
  else
    match access.anchors.lookup actingRoot with
    | some lv => lv
    | none => access.all

/-- The truthiness test `not filter or anchor.name in filter` of
`append_entry`: an omitted (`None`) or empty filter set admits every
name. -/
def passesFilter (filter : Option (List String)) (name : String) : Bool :=
  match filter with
  | none => true
  | some l => l.isEmpty || l.contains name

/-- Model of `append_entry(filter, cache, entries, anchor)`: when the anchor's
type passes the filter and its id is not in the visited cache, the id
is added to the cache and appended to the frontier, in one step;
the anchor's `ref_id` is returned unconditionally.
Result: `(cache, entries, ref_id)`. -/
def append_entry (filter : Option (List String)) (cache : Finset Nat)
    (entries : List Nat) (k : RefKind) (anchor : Ref) :
    Finset Nat × List Nat × RefId :=
  if passesFilter filter anchor.name ∧ anchor.id ∉ cache then
    (insert anchor.id cache, entries ++ [anchor.id], refIdOf k anchor)
  else
    (cache, entries, refIdOf k anchor)

/-- The `"archetype"` key set by `build_data`: present exactly when `detailed`. -/
def build_archetype (detailed : Bool) (arch : String) : Option String :=
  if detailed then some arch else none

/-- An emitted node record `{id, edges, archetype?}`. -/
structure NodeData where
  id : RefId
  edges : List RefId
  archetype : Option String
deriving DecidableEq, Repr

/-- An emitted edge record `{id, source, target, archetype?}`. -/
structure EdgeData where
  id : RefId
  source : RefId
  target : RefId
  archetype : Option String
deriving DecidableEq, Repr

/-- One step of the list comprehension
`[append_entry(edge_types, edge_ids, entries, ed) for ed in node.edges]`:
collect the returned ref-id, thread the visited set and the frontier. -/
def nodeDataStep (edge_types : Option (List String))
    (acc : List RefId × Finset Nat × List Nat) (ed : Ref) :
    List RefId × Finset Nat × List Nat :=
  let s := append_entry edge_types acc.2.1 acc.2.2 .edge ed
  (acc.1 ++ [s.2.2], s.1, s.2.1)

/-- Build the record for one node document: fold `append_entry` over
its incident edge references (updating the edge visited-set and the
shared frontier), collecting every returned ref-id into the record's
`edges` list.  Result: `(record, edge_ids, entries)`. -/
def buildNodeData (edge_types : Option (List String)) (detailed : Bool)
    (edge_ids : Finset Nat) (entries : List Nat) (nd : NodeDoc) :
    NodeData × Finset Nat × List Nat :=
  let r := nd.edges.foldl (nodeDataStep edge_types) ([], edge_ids, entries)
  (⟨⟨.node, nd.name, nd.id⟩, r.1, build_archetype detailed nd.archetype⟩,
    r.2.1, r.2.2)

/-- Build the record for one edge document: `append_entry` on its
source then its target reference (updating the node visited-set and
the shared frontier).  Result: `(record, node_ids, entries)`. -/
def buildEdgeData (node_types : Option (List String)) (detailed : Bool)
    (node_ids : Finset Nat) (entries : List Nat) (ed : EdgeDoc) :
    EdgeData × Finset Nat × List Nat :=
  let s := append_entry node_types node_ids entries .node ed.source
  let t := append_entry node_types s.1 s.2.1 .node ed.target
  (⟨⟨.edge, ed.name, ed.id⟩, s.2.2, t.2.2,
      build_archetype detailed ed.archetype⟩, t.1, t.2.1)

/-- Mutable state of the traversal loop shared by the batch and the
streaming form: the two visited-id sets, the current frontier, the
expansion flip-flop `get_edges` and the remaining `depth`. -/
structure TravState where
  node_ids : Finset Nat
  edge_ids : Finset Nat
  entries : List Nat
  get_edges : Bool
  depth : Int

/-- What one expansion round emitted: a batch of edge records or a
batch of node records (the loop alternates between the two). -/
inductive RoundOut where
  | onodes (l : List NodeData)
  | oedges (l : List EdgeData)
deriving DecidableEq, Repr

/-- One step of the generator expression of an edge round: emit this
edge's record and thread the node visited-set and the round's fresh
frontier. -/
def edgeRoundStep (node_types : Option (List String)) (detailed : Bool)
    (acc : List EdgeData × Finset Nat × List Nat) (e : EdgeDoc) :
    List EdgeData × Finset Nat × List Nat :=
  let s := buildEdgeData node_types detailed acc.2.1 acc.2.2 e
  (acc.1 ++ [s.1], s.2.1, s.2.2)

/-- One step of the generator expression of a node round: emit this
node's record and thread the edge visited-set and the round's fresh
frontier. -/
def nodeRoundStep (edge_types : Option (List String)) (detailed : Bool)
    (acc : List NodeData × Finset Nat × List Nat) (n : NodeDoc) :
    List NodeData × Finset Nat × List Nat :=
  let s := buildNodeData edge_types detailed acc.2.1 acc.2.2 n
  (acc.1 ++ [s.1], s.2.1, s.2.2)

/-- One iteration of the `while entries and (depth > 0 or depth < 0)`
body, shared verbatim between `traverse` and `traverse_process` in the
source: batch-load the frontier ids from the flipped collection
(`Collection.find({"_id": {"$in": entries}})`, i.e. the documents of
that collection whose id lies in the frontier, in collection order),
emit their records, collect the next frontier, and decrement `depth`. -/
def stepRound (g : Graph) (node_types edge_types : Option (List String))
    (detailed : Bool) (st : TravState) : RoundOut × TravState :=
  if st.get_edges then
    let r := (g.edges.filter (fun e => e.id ∈ st.entries)).foldl
      (edgeRoundStep node_types detailed) ([], st.node_ids, [])
    (.oedges r.1,
      { st with node_ids := r.2.1, entries := r.2.2,
                get_edges := false, depth := st.depth - 1 })
  else
    let r := (g.nodes.filter (fun n => n.id ∈ st.entries)).foldl
      (nodeRoundStep edge_types detailed) ([], st.edge_ids, [])
    (.onodes r.1,
      { st with edge_ids := r.2.1, entries := r.2.2,
                get_edges := true, depth := st.depth - 1 })

/-- The loop guard `entries and (depth > 0 or depth < 0)`. -/
def travGuard (st : TravState) : Prop :=
  st.entries ≠ [] ∧ st.depth ≠ 0

instance (st : TravState) : Decidable (travGuard st) := by
  unfold travGuard; infer_instance

/-- The batch traversal loop: run rounds while the guard holds,
accumulating the emitted node and edge records (the `nodes.extend` /
`edges.extend` of the source), also returning the final loop state.
`fuel` bounds the number of iterations; `travFuel` below always
suffices (claim C6). -/
def travLoop (g : Graph) (node_types edge_types : Option (List String))
    (detailed : Bool) : Nat → TravState → (List NodeData × List EdgeData) × TravState
  | 0, st => (([], []), st)
  | fuel + 1, st =>
    if travGuard st then
      let r := stepRound g node_types edge_types detailed st
      let rest := travLoop g node_types edge_types detailed fuel r.2
      match r.1 with
      | .onodes l => ((l ++ rest.1.1, rest.1.2), rest.2)
      | .oedges l => ((rest.1.1, l ++ rest.1.2), rest.2)
    else (([], []), st)

/-- The set of node ids a traversal of `g` can ever insert into
`node_ids` during the loop (source/target references of stored edges). -/
def nodeUniverse (g : Graph) : Finset Nat :=
  ((g.edges.map (fun e => [e.source.id, e.target.id])).flatten).toFinset

/-- The set of edge ids a traversal of `g` can ever insert into
`edge_ids` during the loop (incident-edge references of stored nodes). -/
def edgeUniverse (g : Graph) : Finset Nat :=
  ((g.nodes.map (fun n => n.edges.map Ref.id)).flatten).toFinset

/-- Iteration bound for the traversal loop on `g`: each non-final
round strictly grows one of the visited sets inside its universe. -/
def travFuel (g : Graph) : Nat :=
  (nodeUniverse g).card + (edgeUniverse g).card + 2

/-- The start reference, as decoded by `BaseAnchor.ref` from the
`source` query parameter: a kind prefix (`n` / `e`, or any other
prefix such as `o`, which selects a collection holding neither nodes
nor edges) and an object id. -/
inductive SrcKind where
  | n
  | e
  | o
deriving DecidableEq, Repr

/-- A decoded `source` reference. -/
structure SrcRef where
  kind : SrcKind
  id : Nat
deriving DecidableEq, Repr

/-- The resolved start entity of a traversal. -/
inductive Entity where
  | node (nd : NodeDoc)
  | edge (ed : EdgeDoc)
deriving DecidableEq, Repr

/-- Start-anchor resolution shared by `traverse` and
`traverse_process`: no `source` means the caller's root; otherwise
`find_by_id` in the collection selected by the reference's prefix,
raising `ValueError("Invalid source!")` when the document is absent
or is neither a `NodeAnchor` nor an `EdgeAnchor`. -/
def resolveEntry (g : Graph) (source : Option SrcRef) (root : NodeDoc) :
    Except String Entity :=
  match source with
  | none => .ok (.node root)
  | some s =>
    match s.kind with
    | .n =>
      match g.nodes.find? (fun nd => nd.id = s.id) with
      | some nd => .ok (.node nd)
      | none => .error "Invalid source!"
    | .e =>
      match g.edges.find? (fun ed => ed.id = s.id) with
      | some ed => .ok (.edge ed)
      | none => .error "Invalid source!"
    | .o =>
      match g.objects.find? (fun od => od.id = s.id) with
      | some _ => .error "Invalid source!"
      | none => .error "Invalid source!"

/-- Round 0: emit the start entity (its record listing its incident
ref-ids), seed the matching visited set with the start id, seed the
frontier through `append_entry`, and set the expansion flip-flop. -/
def initTrav (node_types edge_types : Option (List String))
    (detailed : Bool) (ent : Entity) (depth : Int) : RoundOut × TravState :=
  match ent with
  | .node nd =>
    let r := buildNodeData edge_types detailed ∅ [] nd
    (.onodes [r.1],
      ⟨{nd.id}, r.2.1, r.2.2, true, depth⟩)
  | .edge ed =>
    let r := buildEdgeData node_types detailed ∅ [] ed
    (.oedges [r.1],
      ⟨r.2.1, {ed.id}, r.2.2, false, depth⟩)

/-- The accumulated batch response `{"edges": edges, "nodes": nodes}`. -/
structure TraverseResult where
  edges : List EdgeData
  nodes : List NodeData
deriving DecidableEq, Repr

/-- Model of `GET /util/traverse`: resolve the start entity, emit round 0,
run the expansion loop, and return the accumulated
`{"edges": ..., "nodes": ...}` response. -/
def traverse (g : Graph) (root : NodeDoc) (source : Option SrcRef)
    (detailed : Bool) (depth : Int)
    (node_types edge_types : Option (List String)) :
    Except String TraverseResult :=
  (resolveEntry g source root).map (fun ent =>
    let r0 := initTrav node_types edge_types detailed ent depth
    let rest := travLoop g node_types edge_types detailed (travFuel g) r0.2
    match r0.1 with
    | .onodes l => ⟨rest.1.2, l ++ rest.1.1⟩
    | .oedges l => ⟨l ++ rest.1.2, rest.1.1⟩)

/-- One newline-delimited JSON line of the streaming response:
either `{"nodes": [...]}` or `{"edges": [...]}`. -/
inductive Chunk where
  | nodes (l : List NodeData)
  | edges (l : List EdgeData)
deriving DecidableEq, Repr

/-- Wrap a round's emission as its streamed line. -/
def chunkOf (out : RoundOut) : Chunk :=
  match out with
  | .onodes l => .nodes l
  | .oedges l => .edges l

/-- The streaming traversal loop of `traverse_process`: identical
round body (the source duplicates it verbatim), but each round's
records are yielded as one chunk instead of being accumulated. -/
def streamLoop (g : Graph) (node_types edge_types : Option (List String))
    (detailed : Bool) : Nat → TravState → List Chunk
  | 0, _ => []
  | fuel + 1, st =>
    if travGuard st then
      let r := stepRound g node_types edge_types detailed st
      chunkOf r.1 :: streamLoop g node_types edge_types detailed fuel r.2
    else []

/-- Model of `traverse_process` (the generator behind
`GET /util/traverse-stream`): same start resolution and round 0, then
one yielded line per expansion round. -/
def traverse_process (g : Graph) (root : NodeDoc) (source : Option SrcRef)
    (detailed : Bool) (depth : Int)
    (node_types edge_types : Option (List String)) :
    Except String (List Chunk) :=
  (resolveEntry g source root).map (fun ent =>
    let r0 := initTrav node_types edge_types detailed ent depth
    chunkOf r0.1 ::
      streamLoop g node_types edge_types detailed (travFuel g) r0.2)

/-- The node records of a streamed line. -/
def chunkNodes (c : Chunk) : List NodeData :=
  match c with
  | .nodes l => l
  | .edges _ => []

/-- The edge records of a streamed line. -/
def chunkEdges (c : Chunk) : List EdgeData :=
  match c with
  | .nodes _ => []
  | .edges l => l

/-- Recombine a streamed response into a batch-shaped document
(the comparison glue for the refinement claim: all yielded round
records combined, nodes with nodes and edges with edges, in order). -/
def combineChunks (cs : List Chunk) : TraverseResult :=
  ⟨(cs.map chunkEdges).flatten, (cs.map chunkNodes).flatten⟩

/-- The query-parameter layer of `GET /util/traverse`: an omitted
`depth` defaults to `1` (`depth: int = 1` in the endpoint signature). -/
def traverseEndpoint (g : Graph) (root : NodeDoc) (source : Option SrcRef)
    (detailed : Bool) (depth : Option Int)
    (node_types edge_types : Option (List String)) :
    Except String TraverseResult :=
  traverse g root source detailed (depth.getD 1) node_types edge_types

/-- The query-parameter layer of `GET /util/traverse-stream`: an
omitted `depth` likewise defaults to `1`. -/
def traverseStreamEndpoint (g : Graph) (root : NodeDoc)
    (source : Option SrcRef) (detailed : Bool) (depth : Option Int)
    (node_types edge_types : Option (List String)) :
    Except String (List Chunk) :=
  traverse_process g root source detailed (depth.getD 1) node_types edge_types

/-- Default permission document `{all: NO_ACCESS, roots: {anchors: {}}}`. -/
def noAccess : Permission := ⟨.NO_ACCESS, []⟩

/-- The reference linear chain of the test suite
(`trigger_traverse_graph_util`): four nodes `"" → A → B → C` joined
by three untyped edges, rooted at the head node (id 1). -/
def chainGraph : Graph :=
  { nodes :=
      [ ⟨1, "", some 1, noAccess, "", [⟨11, ""⟩]⟩,
        ⟨2, "A", some 1, noAccess, "", [⟨11, ""⟩, ⟨12, ""⟩]⟩,
        ⟨3, "B", some 1, noAccess, "", [⟨12, ""⟩, ⟨13, ""⟩]⟩,
        ⟨4, "C", some 1, noAccess, "", [⟨13, ""⟩]⟩ ],
    edges :=
      [ ⟨11, "", some 1, noAccess, "", ⟨1, ""⟩, ⟨2, "A"⟩⟩,
        ⟨12, "", some 1, noAccess, "", ⟨2, "A"⟩, ⟨3, "B"⟩⟩,
        ⟨13, "", some 1, noAccess, "", ⟨3, "B"⟩, ⟨4, "C"⟩⟩ ],
    objects := [] }

/-- The head node of the chain, used as the caller's root anchor. -/
def chainRoot : NodeDoc := ⟨1, "", some 1, noAccess, "", [⟨11, ""⟩]⟩

deriving instance DecidableEq for Except

/-- The record `traverse` emits for a node document, in closed form:
its own ref-id, the ref-ids of ALL its incident edge references (the
list comprehension collects `append_entry`'s unconditional return
value), and the archetype when `detailed`. -/
def nodeRecord (detailed : Bool) (nd : NodeDoc) : NodeData :=
  ⟨⟨.node, nd.name, nd.id⟩, nd.edges.map (refIdOf .edge),
    build_archetype detailed nd.archetype⟩

/-- The record `traverse` emits for an edge document, in closed form:
its own ref-id and the ref-ids of its source and target (always
present), and the archetype when `detailed`. -/
def edgeRecord (detailed : Bool) (ed : EdgeDoc) : EdgeData :=
  ⟨⟨.edge, ed.name, ed.id⟩, refIdOf .node ed.source,
    refIdOf .node ed.target, build_archetype detailed ed.archetype⟩

/-- Closed form of the frontier a sequence of `append_entry` calls
admits: first occurrences of the reference ids that pass the type
filter and are not yet in the visited cache. -/
def frontierFilter (f : Option (List String)) (cache : Finset Nat) :
    List Ref → List Nat
  | [] => []
  | r :: rs =>
    if passesFilter f r.name ∧ r.id ∉ cache then
      r.id :: frontierFilter f (insert r.id cache) rs
    else
      frontierFilter f cache rs

/-!
## Model of `create_system_admin` (`jac_cloud/plugin/cli.py`)
-/

/-- Modelled from the spec: `PUBLIC_ROOT_ID`, the fixed object id of
the singleton public-root node anchor (the constant lives in
`jac_cloud/core/context.py`, which is not among the provided sources;
the spec only requires two distinct singleton ids). -/
def PUBLIC_ROOT_ID : Nat := 0

/-- Modelled from the spec: `SUPER_ROOT_ID`, the fixed object id of
the singleton super-root node anchor (see `PUBLIC_ROOT_ID`). -/
def SUPER_ROOT_ID : Nat := 1

/-- A raw node document as inserted by `create_system_admin`:
the `_id` key plus the keys of `default_data`. -/
structure AdminNodeDoc where
  oid : Nat
  name : Option String
  root : Option Nat
  access : Permission
  archetype : List (String × String)
  edges : List Nat
deriving DecidableEq, Repr

/-- The `default_data` document of `create_system_admin`, keyed by the
`_id` to insert it under: `name: None, root: None, access: {all:
NO_ACCESS, roots: {anchors: {}}}, archetype: {}, edges: []`. -/
def default_data (i : Nat) : AdminNodeDoc :=
  ⟨i, none, none, ⟨.NO_ACCESS, []⟩, [], []⟩

/-- Model of `Collection.find_by_id` on the node collection. -/
def find_by_id (c : List AdminNodeDoc) (i : Nat) : Option AdminNodeDoc :=
  c.find? (fun d => d.oid = i)

/-- Model of `Collection.insert_one` on the node collection. -/
def insert_one (c : List AdminNodeDoc) (d : AdminNodeDoc) :
    List AdminNodeDoc :=
  c ++ [d]

/-- One `if not find_by_id(i): insert_one({_id: i, **default_data})`
block of the transaction body. -/
def ensureRoot (c : List AdminNodeDoc) (i : Nat) : List AdminNodeDoc :=
  if (find_by_id c i).isSome then c else insert_one c (default_data i)

/-- The system-root part of `create_system_admin`'s transaction body:
lazily create `PUBLIC_ROOT` then `SUPER_ROOT`. -/
def create_system_admin_roots (c : List AdminNodeDoc) : List AdminNodeDoc :=
  ensureRoot (ensureRoot c PUBLIC_ROOT_ID) SUPER_ROOT_ID

/-- Possible outcomes of one attempt of `create_system_admin`'s
transaction body, as observed at its `try`: the user insert returned
an id (success), returned no id (`SystemError`), or the store raised
a `ConnectionFailure`/`OperationFailure` with or without the
`TransientTransactionError` label. -/
inductive AttemptOutcome where
  | inserted (id : Nat)
  | noInsertedId
  | transientErr
  | otherErr
deriving DecidableEq, Repr

/-- What `create_system_admin` re-raises to its caller. -/
inductive AdminRaise where
  | transientErr
  | otherErr
  | systemErr
deriving DecidableEq, Repr

/-- The success message `f"System Admin created with id: {id}"`. -/
def adminCreatedMsg (i : Nat) : String :=
  "System Admin created with id: " ++ toString i

/-- The `while True` retry loop of `create_system_admin`, starting at
retry counter `r` (the loop enters with `r = 0`).  `M` is
`BulkWrite.SESSION_MAX_TRANSACTION_RETRY` (a config constant whose
definition is not among the provided sources; the loop is proved for
every value).  `body k` is the outcome of the transaction body on the
attempt with retry counter `k`.  Returns the surfaced result together
with the list of logged retry numbers (the `Retrying [retry/M]` log
lines, in order). -/
def create_system_admin_loop (M : Nat) (body : Nat → AttemptOutcome)
    (r : Nat) : Except AdminRaise String × List Nat :=
  match body r with
  | .inserted i => (.ok (adminCreatedMsg i), [])
  | .noInsertedId => (.error .systemErr, [])
  | .otherErr => (.error .otherErr, [])
  | .transientErr =>
    if h : r ≤ M then
      let res := create_system_admin_loop M body (r + 1)
      (res.1, (r + 1) :: res.2)
    else (.error .transientErr, [])
termination_by M + 1 - r
decreasing_by omega

/-- The retry loop of `create_system_admin` as entered (retry counter 0). -/
def create_system_admin_retry (M : Nat) (body : Nat → AttemptOutcome) :
    Except AdminRaise String × List Nat :=
  create_system_admin_loop M body 0
/-!
## Helper lemmas about `append_entry` and the round folds
-/

theorem append_entry_ref (f : Option (List String)) (c : Finset Nat)
    (en : List Nat) (k : RefKind) (a : Ref) :
    (append_entry f c en k a).2.2 = refIdOf k a := by
  unfold append_entry
  split <;> rfl

/-- Invariant of the (visited cache, fresh frontier) pair through one
expansion round that started with cache `c0` and whose admitted ids
all lie in `univ`. -/
def RoundInv (c0 univ : Finset Nat) (s : Finset Nat × List Nat) : Prop :=
  c0 ⊆ s.1 ∧ s.1 ⊆ c0 ∪ univ ∧ s.2.Nodup ∧
    ∀ x ∈ s.2, x ∈ s.1 ∧ x ∉ c0 ∧ x ∈ univ

theorem roundInv_append (f : Option (List String)) (k : RefKind)
    (a : Ref) (c0 univ c : Finset Nat) (en : List Nat)
    (ha : a.id ∈ univ) (h : RoundInv c0 univ (c, en)) :
    RoundInv c0 univ
      ((append_entry f c en k a).1, (append_entry f c en k a).2.1) := by
  obtain ⟨h1, h2, h3, h4⟩ := h
  unfold append_entry
  split
  case isTrue hc =>
    refine ⟨h1.trans (Finset.subset_insert _ _), ?_, ?_, ?_⟩
    · exact Finset.insert_subset (Finset.mem_union_right _ ha)
        h2
    · refine List.Nodup.append h3 (List.nodup_singleton _) ?_
      intro x hx hx'
      simp only [List.mem_singleton] at hx'
      subst hx'
      exact hc.2 ((h4 _ hx).1)
    · intro x hx
      rcases List.mem_append.mp hx with hx | hx
      · obtain ⟨p1, p2, p3⟩ := h4 x hx
        exact ⟨Finset.mem_insert_of_mem p1, p2, p3⟩
      · simp only [List.mem_singleton] at hx
        subst hx
        exact ⟨Finset.mem_insert_self _ _, fun hm => hc.2 (h1 hm), ha⟩
  case isFalse hc =>
    exact ⟨h1, h2, h3, h4⟩

theorem roundInv_buildEdge (nt : Option (List String)) (det : Bool)
    (e : EdgeDoc) (c0 univ c : Finset Nat) (en : List Nat)
    (hs : e.source.id ∈ univ) (ht : e.target.id ∈ univ)
    (h : RoundInv c0 univ (c, en)) :
    RoundInv c0 univ (buildEdgeData nt det c en e).2 := by
  have h1 := roundInv_append nt .node e.source c0 univ c en hs h
  have h2 := roundInv_append nt .node e.target c0 univ
    (append_entry nt c en .node e.source).1
    (append_entry nt c en .node e.source).2.1 ht h1
  exact h2

theorem roundInv_nodeDataFold (et : Option (List String))
    (c0 univ : Finset Nat) :
    ∀ (l : List Ref) (acc : List RefId × Finset Nat × List Nat),
      (∀ r ∈ l, r.id ∈ univ) → RoundInv c0 univ acc.2 →
      RoundInv c0 univ (l.foldl (nodeDataStep et) acc).2
  | [], acc, _, h => h
  | r :: rs, acc, hl, h => by
    simp only [List.foldl_cons]
    refine roundInv_nodeDataFold et c0 univ rs _ (fun x hx => hl x (List.mem_cons_of_mem _ hx)) ?_
    have := roundInv_append et .edge r c0 univ acc.2.1 acc.2.2
      (hl r (List.mem_cons_self _ _)) (by exact h)
    exact this

theorem roundInv_buildNode (et : Option (List String)) (det : Bool)
    (nd : NodeDoc) (c0 univ c : Finset Nat) (en : List Nat)
    (he : ∀ r ∈ nd.edges, r.id ∈ univ)
    (h : RoundInv c0 univ (c, en)) :
    RoundInv c0 univ (buildNodeData et det c en nd).2 := by
  exact roundInv_nodeDataFold et c0 univ nd.edges ([], c, en) he h

theorem buildEdgeData_fst (nt : Option (List String)) (det : Bool)
    (c : Finset Nat) (en : List Nat) (e : EdgeDoc) :
    (buildEdgeData nt det c en e).1 = edgeRecord det e := by
  simp only [buildEdgeData, edgeRecord, append_entry_ref]

theorem nodeDataFold_fst (et : Option (List String)) :
    ∀ (l : List Ref) (acc : List RefId × Finset Nat × List Nat),
      (l.foldl (nodeDataStep et) acc).1 = acc.1 ++ l.map (refIdOf .edge)
  | [], acc => by simp
  | r :: rs, acc => by
    simp only [List.foldl_cons, List.map_cons]
    rw [nodeDataFold_fst et rs]
    simp [nodeDataStep, append_entry_ref]

theorem buildNodeData_fst (et : Option (List String)) (det : Bool)
    (c : Finset Nat) (en : List Nat) (nd : NodeDoc) :
    (buildNodeData et det c en nd).1 = nodeRecord det nd := by
  simp only [buildNodeData, nodeRecord, nodeDataFold_fst]
  rfl

theorem edgeRoundFold_fst (nt : Option (List String)) (det : Bool) :
    ∀ (l : List EdgeDoc) (acc : List EdgeData × Finset Nat × List Nat),
      (l.foldl (edgeRoundStep nt det) acc).1 = acc.1 ++ l.map (edgeRecord det)
  | [], acc => by simp
  | e :: es, acc => by
    simp only [List.foldl_cons, List.map_cons]
    rw [edgeRoundFold_fst nt det es]
    simp [edgeRoundStep, buildEdgeData_fst]

theorem nodeRoundFold_fst (et : Option (List String)) (det : Bool) :
    ∀ (l : List NodeDoc) (acc : List NodeData × Finset Nat × List Nat),
      (l.foldl (nodeRoundStep et det) acc).1 = acc.1 ++ l.map (nodeRecord det)
  | [], acc => by simp
  | n :: ns, acc => by
    simp only [List.foldl_cons, List.map_cons]
    rw [nodeRoundFold_fst et det ns]
    simp [nodeRoundStep, buildNodeData_fst]

theorem roundInv_edgeRoundFold (nt : Option (List String)) (det : Bool)
    (c0 univ : Finset Nat) :
    ∀ (l : List EdgeDoc) (acc : List EdgeData × Finset Nat × List Nat),
      (∀ e ∈ l, e.source.id ∈ univ ∧ e.target.id ∈ univ) →
      RoundInv c0 univ acc.2 →
      RoundInv c0 univ (l.foldl (edgeRoundStep nt det) acc).2
  | [], acc, _, h => h
  | e :: es, acc, hl, h => by
    simp only [List.foldl_cons]
    refine roundInv_edgeRoundFold nt det c0 univ es _
      (fun x hx => hl x (List.mem_cons_of_mem _ hx)) ?_
    exact roundInv_buildEdge nt det e c0 univ acc.2.1 acc.2.2
      (hl e (List.mem_cons_self _ _)).1 (hl e (List.mem_cons_self _ _)).2 h

theorem roundInv_nodeRoundFold (et : Option (List String)) (det : Bool)
    (c0 univ : Finset Nat) :
    ∀ (l : List NodeDoc) (acc : List NodeData × Finset Nat × List Nat),
      (∀ n ∈ l, ∀ r ∈ n.edges, r.id ∈ univ) →
      RoundInv c0 univ acc.2 →
      RoundInv c0 univ (l.foldl (nodeRoundStep et det) acc).2
  | [], acc, _, h => h
  | n :: ns, acc, hl, h => by
    simp only [List.foldl_cons]
    refine roundInv_nodeRoundFold et det c0 univ ns _
      (fun x hx => hl x (List.mem_cons_of_mem _ hx)) ?_
    exact roundInv_buildNode et det n c0 univ acc.2.1 acc.2.2
      (hl n (List.mem_cons_self _ _)) h

theorem mem_nodeUniverse (g : Graph) (e : EdgeDoc) (he : e ∈ g.edges) :
    e.source.id ∈ nodeUniverse g ∧ e.target.id ∈ nodeUniverse g := by
  constructor <;>
  · simp only [nodeUniverse, List.mem_toFinset, List.mem_flatten,
      List.mem_map]
    exact ⟨[e.source.id, e.target.id], ⟨e, he, rfl⟩, by simp⟩

theorem mem_edgeUniverse (g : Graph) (n : NodeDoc) (hn : n ∈ g.nodes)
    (r : Ref) (hr : r ∈ n.edges) : r.id ∈ edgeUniverse g := by
  simp only [edgeUniverse, List.mem_toFinset, List.mem_flatten,
    List.mem_map]
  exact ⟨n.edges.map Ref.id, ⟨n, hn, rfl⟩, List.mem_map_of_mem _ hr⟩

/-- The empty round state satisfies the round invariant. -/
theorem roundInv_init (c0 univ : Finset Nat) :
    RoundInv c0 univ (c0, []) :=
  ⟨Finset.Subset.refl _, Finset.subset_union_left, List.nodup_nil,
    fun x hx => absurd hx (List.not_mem_nil x)⟩

/-!
## Characterization of one expansion round
-/

theorem stepRound_edge (g : Graph) (nt et : Option (List String))
    (det : Bool) (st : TravState) (hge : st.get_edges = true) :
    (stepRound g nt et det st).1 =
      .oedges ((g.edges.filter (fun e => e.id ∈ st.entries)).map
        (edgeRecord det)) ∧
    (stepRound g nt et det st).2.edge_ids = st.edge_ids ∧
    (stepRound g nt et det st).2.get_edges = false ∧
    (stepRound g nt et det st).2.depth = st.depth - 1 ∧
    RoundInv st.node_ids (nodeUniverse g)
      ((stepRound g nt et det st).2.node_ids,
       (stepRound g nt et det st).2.entries) := by
  obtain ⟨ni, ei, en, ge, d⟩ := st
  simp only at hge
  subst hge
  refine ⟨?_, rfl, rfl, rfl, ?_⟩
  · show RoundOut.oedges
      ((g.edges.filter (fun e => e.id ∈ en)).foldl
        (edgeRoundStep nt det) ([], ni, [])).1 = _
    rw [edgeRoundFold_fst]
    rfl
  · exact roundInv_edgeRoundFold nt det ni (nodeUniverse g) _ _
      (fun e he => mem_nodeUniverse g e (List.mem_of_mem_filter he))
      (roundInv_init _ _)

theorem stepRound_node (g : Graph) (nt et : Option (List String))
    (det : Bool) (st : TravState) (hge : st.get_edges = false) :
    (stepRound g nt et det st).1 =
      .onodes ((g.nodes.filter (fun n => n.id ∈ st.entries)).map
        (nodeRecord det)) ∧
    (stepRound g nt et det st).2.node_ids = st.node_ids ∧
    (stepRound g nt et det st).2.get_edges = true ∧
    (stepRound g nt et det st).2.depth = st.depth - 1 ∧
    RoundInv st.edge_ids (edgeUniverse g)
      ((stepRound g nt et det st).2.edge_ids,
       (stepRound g nt et det st).2.entries) := by
  obtain ⟨ni, ei, en, ge, d⟩ := st
  simp only at hge
  subst hge
  refine ⟨?_, rfl, rfl, rfl, ?_⟩
  · show RoundOut.onodes
      ((g.nodes.filter (fun n => n.id ∈ en)).foldl
        (nodeRoundStep et det) ([], ei, [])).1 = _
    rw [nodeRoundFold_fst]
    rfl
  · exact roundInv_nodeRoundFold et det ei (edgeUniverse g) _ _
      (fun n hn r hr => mem_edgeUniverse g n (List.mem_of_mem_filter hn) r hr)
      (roundInv_init _ _)

/-- Neither the emission nor the non-`depth` state components of a
round depend on the incoming `depth`; the outgoing `depth` is the
incoming one minus 1. -/
theorem stepRound_depth (g : Graph) (nt et : Option (List String))
    (det : Bool) (ni ei : Finset Nat) (en : List Nat) (ge : Bool)
    (d d' : Int) :
    stepRound g nt et det ⟨ni, ei, en, ge, d⟩ =
      ((stepRound g nt et det ⟨ni, ei, en, ge, d'⟩).1,
       { (stepRound g nt et det ⟨ni, ei, en, ge, d'⟩).2 with
           depth := d - 1 }) := by
  cases ge <;> rfl

/-!
## Loop-level lemmas
-/

theorem travLoop_stopped (g : Graph) (nt et : Option (List String))
    (det : Bool) (st : TravState) (h : ¬ travGuard st) :
    ∀ fuel, travLoop g nt et det fuel st = (([], []), st)
  | 0 => rfl
  | fuel + 1 => by simp [travLoop, h]

theorem streamLoop_stopped (g : Graph) (nt et : Option (List String))
    (det : Bool) (st : TravState) (h : ¬ travGuard st) :
    ∀ fuel, streamLoop g nt et det fuel st = []
  | 0 => rfl
  | fuel + 1 => by simp [streamLoop, h]

/-- The batch loop and the streaming loop run the same rounds: the
batch accumulators are the concatenations of the streamed chunks. -/
theorem travLoop_eq_streamLoop (g : Graph) (nt et : Option (List String))
    (det : Bool) :
    ∀ (fuel : Nat) (st : TravState),
      (travLoop g nt et det fuel st).1.1 =
        ((streamLoop g nt et det fuel st).map chunkNodes).flatten ∧
      (travLoop g nt et det fuel st).1.2 =
        ((streamLoop g nt et det fuel st).map chunkEdges).flatten
  | 0, st => by simp [travLoop, streamLoop]
  | fuel + 1, st => by
    by_cases h : travGuard st
    · have ih := travLoop_eq_streamLoop g nt et det fuel
        (stepRound g nt et det st).2
      simp only [travLoop, streamLoop, if_pos h]
      cases hout : (stepRound g nt et det st).1 with
      | onodes l =>
        simp [hout, chunkOf, chunkNodes, chunkEdges, ih.1, ih.2]
      | oedges l =>
        simp [hout, chunkOf, chunkNodes, chunkEdges, ih.1, ih.2]
    · simp [travLoop_stopped g nt et det st h, streamLoop_stopped g nt et det st h]

/-- Running `a + b` rounds of the batch loop is running `a` rounds and
continuing with `b` rounds from the reached state. -/
theorem travLoop_add (g : Graph) (nt et : Option (List String))
    (det : Bool) :
    ∀ (a b : Nat) (st : TravState),
      travLoop g nt et det (a + b) st =
        (((travLoop g nt et det a st).1.1 ++
            (travLoop g nt et det b (travLoop g nt et det a st).2).1.1,
          (travLoop g nt et det a st).1.2 ++
            (travLoop g nt et det b (travLoop g nt et det a st).2).1.2),
         (travLoop g nt et det b (travLoop g nt et det a st).2).2)
  | 0, b, st => by simp [travLoop, Nat.zero_add]
  | a + 1, b, st => by
    by_cases h : travGuard st
    · have ih := travLoop_add g nt et det a b (stepRound g nt et det st).2
      have hrw : a + 1 + b = (a + b) + 1 := by omega
      rw [hrw]
      simp only [travLoop, if_pos h, ih]
      cases hout : (stepRound g nt et det st).1 with
      | onodes l => simp
      | oedges l => simp
    · have h1 := travLoop_stopped g nt et det st h
      simp [h1]

theorem streamLoop_add (g : Graph) (nt et : Option (List String))
    (det : Bool) :
    ∀ (a b : Nat) (st : TravState),
      streamLoop g nt et det (a + b) st =
        streamLoop g nt et det a st ++
          streamLoop g nt et det b (travLoop g nt et det a st).2
  | 0, b, st => by simp [travLoop, streamLoop, Nat.zero_add]
  | a + 1, b, st => by
    by_cases h : travGuard st
    · have ih := streamLoop_add g nt et det a b (stepRound g nt et det st).2
      have hrw : a + 1 + b = (a + b) + 1 := by omega
      rw [hrw]
      simp only [streamLoop, travLoop, if_pos h, ih]
      cases hout : (stepRound g nt et det st).1 with
      | onodes l => simp
      | oedges l => simp
    · simp [streamLoop_stopped g nt et det st h,
        travLoop_stopped g nt et det st h]

/-- Progress measure of claim C6: how many admissible ids are still
missing from the two visited sets. -/
def travMeasure (g : Graph) (st : TravState) : Nat :=
  (nodeUniverse g \ st.node_ids).card + (edgeUniverse g \ st.edge_ids).card

theorem stepRound_measure (g : Graph) (nt et : Option (List String))
    (det : Bool) (st : TravState)
    (h' : (stepRound g nt et det st).2.entries ≠ []) :
    travMeasure g (stepRound g nt et det st).2 < travMeasure g st := by
  obtain ⟨x, hx⟩ := List.exists_mem_of_ne_nil _ h'
  cases hge : st.get_edges
  case true =>
    obtain ⟨_, hei, _, _, ⟨hsub, _, _, hmem⟩⟩ :=
      stepRound_edge g nt et det st hge
    obtain ⟨hx1, hx2, hx3⟩ := hmem x hx
    have hss : nodeUniverse g \ (stepRound g nt et det st).2.node_ids ⊂
        nodeUniverse g \ st.node_ids := by
      rw [Finset.ssubset_iff_of_subset
        (Finset.sdiff_subset_sdiff (Finset.Subset.refl _) hsub)]
      exact ⟨x, Finset.mem_sdiff.mpr ⟨hx3, hx2⟩,
        fun hmem' => (Finset.mem_sdiff.mp hmem').2 hx1⟩
    unfold travMeasure
    rw [hei]
    exact Nat.add_lt_add_right (Finset.card_lt_card hss) _
  case false =>
    obtain ⟨_, hni, _, _, ⟨hsub, _, _, hmem⟩⟩ :=
      stepRound_node g nt et det st hge
    obtain ⟨hx1, hx2, hx3⟩ := hmem x hx
    have hss : edgeUniverse g \ (stepRound g nt et det st).2.edge_ids ⊂
        edgeUniverse g \ st.edge_ids := by
      rw [Finset.ssubset_iff_of_subset
        (Finset.sdiff_subset_sdiff (Finset.Subset.refl _) hsub)]
      exact ⟨x, Finset.mem_sdiff.mpr ⟨hx3, hx2⟩,
        fun hmem' => (Finset.mem_sdiff.mp hmem').2 hx1⟩
    unfold travMeasure
    rw [hni]
    exact Nat.add_lt_add_left (Finset.card_lt_card hss) _

theorem travLoop_snd_step (g : Graph) (nt et : Option (List String))
    (det : Bool) (fuel : Nat) (st : TravState) (h : travGuard st) :
    (travLoop g nt et det (fuel + 1) st).2 =
      (travLoop g nt et det fuel (stepRound g nt et det st).2).2 := by
  simp only [travLoop, if_pos h]
  cases (stepRound g nt et det st).1 <;> rfl

/-- After enough rounds the loop guard is false: the traversal loop
terminates for every graph, state and depth (including negative). -/
theorem travLoop_halts (g : Graph) (nt et : Option (List String))
    (det : Bool) :
    ∀ (fuel : Nat) (st : TravState), travMeasure g st + 2 ≤ fuel →
      ¬ travGuard ((travLoop g nt et det fuel st).2)
  | 0, st, hf => by omega
  | fuel + 1, st, hf => by
    by_cases h : travGuard st
    · rw [travLoop_snd_step g nt et det fuel st h]
      by_cases h' : travGuard (stepRound g nt et det st).2
      · exact travLoop_halts g nt et det fuel (stepRound g nt et det st).2
          (by have := stepRound_measure g nt et det st h'.1; omega)
      · rw [travLoop_stopped g nt et det _ h' fuel]
        exact h'
    · rw [travLoop_stopped g nt et det st h (fuel + 1)]
      exact h

theorem travMeasure_le (g : Graph) (st : TravState) :
    travMeasure g st + 2 ≤ travFuel g := by
  unfold travMeasure travFuel
  have h1 := Finset.card_le_card
    (Finset.sdiff_subset (s := nodeUniverse g) (t := st.node_ids))
  have h2 := Finset.card_le_card
    (Finset.sdiff_subset (s := edgeUniverse g) (t := st.edge_ids))
  omega

/-- Running `travFuel g` iterations always drives the guard to false. -/
theorem travLoop_halts_fuel (g : Graph) (nt et : Option (List String))
    (det : Bool) (st : TravState) :
    ¬ travGuard ((travLoop g nt et det (travFuel g) st).2) :=
  travLoop_halts g nt et det (travFuel g) st (travMeasure_le g st)

/-- The batch loop's result is unchanged by any extra fuel beyond
`travFuel g`. -/
theorem travLoop_stable (g : Graph) (nt et : Option (List String))
    (det : Bool) (st : TravState) (fuel : Nat) (hf : travFuel g ≤ fuel) :
    travLoop g nt et det fuel st = travLoop g nt et det (travFuel g) st := by
  have hsplit : fuel = travFuel g + (fuel - travFuel g) := by omega
  rw [hsplit, travLoop_add,
    travLoop_stopped g nt et det _ (travLoop_halts_fuel g nt et det st)]
  simp

/-- The streaming loop's chunk list is likewise unchanged by extra
fuel. -/
theorem streamLoop_stable (g : Graph) (nt et : Option (List String))
    (det : Bool) (st : TravState) (fuel : Nat) (hf : travFuel g ≤ fuel) :
    streamLoop g nt et det fuel st =
      streamLoop g nt et det (travFuel g) st := by
  have hsplit : fuel = travFuel g + (fuel - travFuel g) := by omega
  rw [hsplit, streamLoop_add,
    streamLoop_stopped g nt et det _ (travLoop_halts_fuel g nt et det st)]
  simp

theorem stepRound_snd_depth (g : Graph) (nt et : Option (List String))
    (det : Bool) (st : TravState) :
    (stepRound g nt et det st).2.depth = st.depth - 1 := by
  obtain ⟨ni, ei, en, ge, d⟩ := st
  cases ge <;> rfl

theorem travState_eta_depth (st : TravState) (x : Int) (h : st.depth = x) :
    { st with depth := x } = st := by
  cases st
  cases h
  rfl

/-- Running the stream with a non-negative depth `k` yields exactly
the first `k` rounds of the unbounded (negative-depth) run. -/
theorem streamLoop_take (g : Graph) (nt et : Option (List String))
    (det : Bool) :
    ∀ (fuel : Nat) (st : TravState) (k : Nat) (d : Int), d < 0 →
      streamLoop g nt et det fuel { st with depth := (k : Int) } =
        (streamLoop g nt et det fuel { st with depth := d }).take k
  | 0, st, k, d, hd => by simp [streamLoop]
  | fuel + 1, st, k, d, hd => by
    obtain ⟨ni, ei, en, ge, d0⟩ := st
    by_cases hen : en = []
    · subst hen
      rw [streamLoop_stopped g nt et det _ (fun hg => hg.1 rfl),
        streamLoop_stopped g nt et det _ (fun hg => hg.1 rfl)]
      simp
    · cases k with
      | zero =>
        rw [streamLoop_stopped g nt et det _ (fun hg => hg.2 rfl)]
        simp
      | succ k' =>
        have hg1 : travGuard ⟨ni, ei, en, ge, ((k' + 1 : Nat) : Int)⟩ :=
          ⟨hen, by show ((k' + 1 : Nat) : Int) ≠ 0; omega⟩
        have hg2 : travGuard ⟨ni, ei, en, ge, d⟩ :=
          ⟨hen, by show d ≠ 0; omega⟩
        show streamLoop g nt et det (fuel + 1) ⟨ni, ei, en, ge, ((k' + 1 : Nat) : Int)⟩ =
          (streamLoop g nt et det (fuel + 1) ⟨ni, ei, en, ge, d⟩).take (k' + 1)
        rw [streamLoop, streamLoop, if_pos hg1, if_pos hg2,
          stepRound_depth g nt et det ni ei en ge ((k' + 1 : Nat) : Int) d]
        simp only [List.take_succ_cons]
        congr 1
        have hcast : ((k' + 1 : Nat) : Int) - 1 = ((k' : Nat) : Int) := by
          omega
        rw [hcast, streamLoop_take g nt et det fuel
          ((stepRound g nt et det ⟨ni, ei, en, ge, d⟩).2) k' (d - 1)
          (by omega)]
        exact congrArg (List.take k')
          (congrArg (streamLoop g nt et det fuel)
            (travState_eta_depth _ (d - 1)
              (by rw [stepRound_snd_depth g nt et det ⟨ni, ei, en, ge, d⟩])))

/-- All negative depths drive the stream identically (unbounded). -/
theorem streamLoop_neg (g : Graph) (nt et : Option (List String))
    (det : Bool) :
    ∀ (fuel : Nat) (st : TravState) (d1 d2 : Int), d1 < 0 → d2 < 0 →
      streamLoop g nt et det fuel { st with depth := d1 } =
        streamLoop g nt et det fuel { st with depth := d2 }
  | 0, st, d1, d2, h1, h2 => by simp [streamLoop]
  | fuel + 1, st, d1, d2, h1, h2 => by
    obtain ⟨ni, ei, en, ge, d0⟩ := st
    by_cases hen : en = []
    · subst hen
      rw [streamLoop_stopped g nt et det _ (fun hg => hg.1 rfl),
        streamLoop_stopped g nt et det _ (fun hg => hg.1 rfl)]
    · have hg1 : travGuard ⟨ni, ei, en, ge, d1⟩ :=
        ⟨hen, by show d1 ≠ 0; omega⟩
      have hg2 : travGuard ⟨ni, ei, en, ge, d2⟩ :=
        ⟨hen, by show d2 ≠ 0; omega⟩
      show streamLoop g nt et det (fuel + 1) ⟨ni, ei, en, ge, d1⟩ =
        streamLoop g nt et det (fuel + 1) ⟨ni, ei, en, ge, d2⟩
      rw [streamLoop, streamLoop, if_pos hg1, if_pos hg2,
        stepRound_depth g nt et det ni ei en ge d1 d2]
      show _ :: streamLoop g nt et det fuel
          { (stepRound g nt et det ⟨ni, ei, en, ge, d2⟩).2 with
              depth := d1 - 1 } = _
      rw [streamLoop_neg g nt et det fuel
        ((stepRound g nt et det ⟨ni, ei, en, ge, d2⟩).2) (d1 - 1) (d2 - 1)
        (by omega) (by omega)]
      rw [travState_eta_depth
        ((stepRound g nt et det ⟨ni, ei, en, ge, d2⟩).2) (d2 - 1)
        (by rw [stepRound_snd_depth g nt et det ⟨ni, ei, en, ge, d2⟩])]


/-!
## Lifting the loop lemmas to `traverse` / `traverse_process`
-/

theorem initTrav_depth (nt et : Option (List String)) (det : Bool)
    (ent : Entity) (d d' : Int) :
    initTrav nt et det ent d =
      ((initTrav nt et det ent d').1,
       { (initTrav nt et det ent d').2 with depth := d }) := by
  cases ent <;> rfl

/-- The batch response is the streamed response with all chunks
combined (nodes with nodes, edges with edges, in order). -/
theorem traverse_eq_combineChunks (g : Graph) (root : NodeDoc)
    (source : Option SrcRef) (det : Bool) (d : Int)
    (nt et : Option (List String)) :
    traverse g root source det d nt et =
      Except.map combineChunks (traverse_process g root source det d nt et) := by
  unfold traverse traverse_process
  cases resolveEntry g source root with
  | error e => rfl
  | ok ent =>
    simp only [Except.map]
    cases ent with
    | node nd =>
      have heq := travLoop_eq_streamLoop g nt et det (travFuel g)
        (initTrav nt et det (.node nd) d).2
      simp only [initTrav] at heq
      simp only [initTrav, combineChunks, chunkOf,
        List.map_cons, List.flatten_cons, chunkNodes, chunkEdges,
        List.nil_append]
      rw [heq.1, heq.2]
    | edge ed =>
      have heq := travLoop_eq_streamLoop g nt et det (travFuel g)
        (initTrav nt et det (.edge ed) d).2
      simp only [initTrav] at heq
      simp only [initTrav, combineChunks, chunkOf,
        List.map_cons, List.flatten_cons, chunkNodes, chunkEdges,
        List.nil_append]
      rw [heq.1, heq.2]

theorem initTrav_snd_depth (nt et : Option (List String)) (det : Bool)
    (ent : Entity) (d : Int) :
    (initTrav nt et det ent d).2.depth = d := by
  cases ent <;> rfl

/-- Streaming with a non-negative depth yields exactly the first
`depth + 1` lines of the unbounded stream: at most `depth` expansion
rounds past round 0, and exactly `depth` whenever the unbounded run
has that many (i.e. no earlier frontier emptied). -/
theorem traverse_process_take (g : Graph) (root : NodeDoc)
    (source : Option SrcRef) (det : Bool) (d : Int)
    (nt et : Option (List String)) (hd : 0 ≤ d) :
    traverse_process g root source det d nt et =
      Except.map (fun l => l.take (d.toNat + 1))
        (traverse_process g root source det (-1) nt et) := by
  unfold traverse_process
  cases resolveEntry g source root with
  | error e => rfl
  | ok ent =>
    simp only [Except.map]
    congr 1
    rw [initTrav_depth nt et det ent d (-1), List.take_succ_cons]
    congr 1
    conv_rhs =>
      rw [← travState_eta_depth (initTrav nt et det ent (-1)).2 (-1)
        (initTrav_snd_depth nt et det ent (-1))]
    conv_lhs =>
      rw [show d = ((d.toNat : Nat) : Int) from (Int.toNat_of_nonneg hd).symm]
    exact streamLoop_take g nt et det (travFuel g)
      (initTrav nt et det ent (-1)).2 d.toNat (-1) (by omega)

/-- All negative depths produce the same (unbounded) stream. -/
theorem traverse_process_neg (g : Graph) (root : NodeDoc)
    (source : Option SrcRef) (det : Bool) (d : Int)
    (nt et : Option (List String)) (hd : d < 0) :
    traverse_process g root source det d nt et =
      traverse_process g root source det (-1) nt et := by
  unfold traverse_process
  cases resolveEntry g source root with
  | error e => rfl
  | ok ent =>
    simp only [Except.map]
    congr 1
    rw [initTrav_depth nt et det ent d (-1)]
    congr 1
    conv_rhs =>
      rw [← travState_eta_depth (initTrav nt et det ent (-1)).2 (-1)
        (initTrav_snd_depth nt et det ent (-1))]
    exact streamLoop_neg g nt et det (travFuel g)
      (initTrav nt et det ent (-1)).2 d (-1) hd (by omega)

/-- With depth 0 the stream is a single line: the start entity. -/
theorem traverse_process_zero (g : Graph) (root : NodeDoc)
    (source : Option SrcRef) (det : Bool) (nt et : Option (List String)) :
    traverse_process g root source det 0 nt et =
      (resolveEntry g source root).map
        (fun ent => [chunkOf (initTrav nt et det ent 0).1]) := by
  unfold traverse_process
  cases resolveEntry g source root with
  | error e => rfl
  | ok ent =>
    simp only [Except.map]
    congr 1
    rw [streamLoop_stopped g nt et det _
      (fun hg => hg.2 (initTrav_snd_depth nt et det ent 0))]

/-!
## Uniqueness of emitted ids (claim C5)
-/

theorem map_edgeRecord_ids (det : Bool) (l : List EdgeDoc) :
    (l.map (edgeRecord det)).map (fun r => r.id.id) = l.map EdgeDoc.id := by
  rw [List.map_map]
  rfl

theorem map_nodeRecord_ids (det : Bool) (l : List NodeDoc) :
    (l.map (nodeRecord det)).map (fun r => r.id.id) = l.map NodeDoc.id := by
  rw [List.map_map]
  rfl

/-- The emitted numeric ids of the batch loop extend the
already-emitted ones without duplicates, given duplicate-free
collections and the visited-set invariants. -/
theorem travLoop_nodup (g : Graph) (nt et : Option (List String))
    (det : Bool) (hn : (g.nodes.map NodeDoc.id).Nodup)
    (he : (g.edges.map EdgeDoc.id).Nodup) :
    ∀ (fuel : Nat) (st : TravState) (pn pe : List Nat),
      pn.Nodup → pe.Nodup →
      (∀ x ∈ pn, x ∈ st.node_ids) → (∀ x ∈ pe, x ∈ st.edge_ids) →
      (st.get_edges = true →
        (∀ x ∈ st.entries, x ∈ st.edge_ids) ∧ ∀ x ∈ st.entries, x ∉ pe) →
      (st.get_edges = false →
        (∀ x ∈ st.entries, x ∈ st.node_ids) ∧ ∀ x ∈ st.entries, x ∉ pn) →
      (pn ++ (travLoop g nt et det fuel st).1.1.map (fun r => r.id.id)).Nodup ∧
      (pe ++ (travLoop g nt et det fuel st).1.2.map (fun r => r.id.id)).Nodup
  | 0, st, pn, pe, hpn, hpe, _, _, _, _ => by
    simp only [travLoop, List.map_nil, List.append_nil]
    exact ⟨hpn, hpe⟩
  | fuel + 1, st, pn, pe, hpn, hpe, hpnm, hpem, htrue, hfalse => by
    by_cases hguard : travGuard st
    · cases hge : st.get_edges with
      | true =>
        obtain ⟨hout, hei, hge', _, ⟨hsub, _, _, hmem⟩⟩ :=
          stepRound_edge g nt et det st hge
        have hEsub : ∀ x ∈ (g.edges.filter
            (fun e => e.id ∈ st.entries)).map EdgeDoc.id, x ∈ st.entries := by
          intro x hx
          obtain ⟨e, he', hxe⟩ := List.mem_map.mp hx
          subst hxe
          exact of_decide_eq_true (List.mem_filter.mp he').2
        have hEnodup : ((g.edges.filter
            (fun e => e.id ∈ st.entries)).map EdgeDoc.id).Nodup :=
          he.sublist ((List.filter_sublist _).map EdgeDoc.id)
        have ih := travLoop_nodup g nt et det hn he fuel
          (stepRound g nt et det st).2 pn
          (pe ++ (g.edges.filter (fun e => e.id ∈ st.entries)).map EdgeDoc.id)
          hpn
          (List.Nodup.append hpe hEnodup
            (fun x hx hx' => ((htrue hge).2 x (hEsub x hx')) hx))
          (fun x hx => hsub (hpnm x hx))
          (fun x hx => by
            rw [hei]
            rcases List.mem_append.mp hx with hx | hx
            · exact hpem x hx
            · exact (htrue hge).1 x (hEsub x hx))
          (fun h => by rw [hge'] at h; exact absurd h (by simp))
          (fun _ => ⟨fun x hx => (hmem x hx).1,
            fun x hx hx' => (hmem x hx).2.1 (hpnm x hx')⟩)
        simp only [travLoop, if_pos hguard, hout]
        simp only [List.map_append, map_edgeRecord_ids] at ih ⊢
        exact ⟨ih.1, by rw [← List.append_assoc]; exact ih.2⟩
      | false =>
        obtain ⟨hout, hni, hge', _, ⟨hsub, _, _, hmem⟩⟩ :=
          stepRound_node g nt et det st hge
        have hEsub : ∀ x ∈ (g.nodes.filter
            (fun n => n.id ∈ st.entries)).map NodeDoc.id, x ∈ st.entries := by
          intro x hx
          obtain ⟨n, hn', hxn⟩ := List.mem_map.mp hx
          subst hxn
          exact of_decide_eq_true (List.mem_filter.mp hn').2
        have hEnodup : ((g.nodes.filter
            (fun n => n.id ∈ st.entries)).map NodeDoc.id).Nodup :=
          hn.sublist ((List.filter_sublist _).map NodeDoc.id)
        have ih := travLoop_nodup g nt et det hn he fuel
          (stepRound g nt et det st).2
          (pn ++ (g.nodes.filter (fun n => n.id ∈ st.entries)).map NodeDoc.id)
          pe
          (List.Nodup.append hpn hEnodup
            (fun x hx hx' => ((hfalse hge).2 x (hEsub x hx')) hx))
          hpe
          (fun x hx => by
            rw [hni]
            rcases List.mem_append.mp hx with hx | hx
            · exact hpnm x hx
            · exact (hfalse hge).1 x (hEsub x hx))
          (fun x hx => hsub (hpem x hx))
          (fun _ => ⟨fun x hx => (hmem x hx).1,
            fun x hx hx' => (hmem x hx).2.1 (hpem x hx')⟩)
          (fun h => by rw [hge'] at h; exact absurd h (by simp))
        simp only [travLoop, if_pos hguard, hout]
        simp only [List.map_append, map_nodeRecord_ids] at ih ⊢
        exact ⟨by rw [← List.append_assoc]; exact ih.1, ih.2⟩
    · rw [travLoop_stopped g nt et det st hguard]
      simp only [List.map_nil, List.append_nil]
      exact ⟨hpn, hpe⟩

/-- Batch traversal of duplicate-free collections emits every node id
and every edge id at most once. -/
theorem traverse_ids_nodup (g : Graph) (root : NodeDoc)
    (source : Option SrcRef) (det : Bool) (d : Int)
    (nt et : Option (List String))
    (hn : (g.nodes.map NodeDoc.id).Nodup)
    (he : (g.edges.map EdgeDoc.id).Nodup) (r : TraverseResult)
    (hr : traverse g root source det d nt et = .ok r) :
    (r.nodes.map (fun x => x.id.id)).Nodup ∧
    (r.edges.map (fun x => x.id.id)).Nodup := by
  unfold traverse at hr
  cases hres : resolveEntry g source root with
  | error e =>
    rw [hres] at hr
    exact absurd hr (by simp [Except.map])
  | ok ent =>
    rw [hres] at hr
    simp only [Except.map, Except.ok.injEq] at hr
    subst hr
    cases ent with
    | node nd =>
      have hinv := roundInv_buildNode et det nd ∅
        ((nd.edges.map Ref.id).toFinset) ∅ []
        (fun r hr => List.mem_toFinset.mpr (List.mem_map_of_mem _ hr))
        (roundInv_init _ _)
      obtain ⟨_, _, _, hmem⟩ := hinv
      have h5 := travLoop_nodup g nt et det hn he (travFuel g)
        ⟨{nd.id}, (buildNodeData et det ∅ [] nd).2.1,
          (buildNodeData et det ∅ [] nd).2.2, true, d⟩
        [nd.id] []
        (List.nodup_singleton _) List.nodup_nil
        (fun x hx => by
          simp only [List.mem_singleton] at hx
          subst hx
          exact Finset.mem_singleton_self _)
        (fun x hx => absurd hx (List.not_mem_nil x))
        (fun _ => ⟨fun x hx => (hmem x hx).1,
          fun x _ hx' => absurd hx' (List.not_mem_nil x)⟩)
        (fun h => by exact absurd h (by simp))
      simp only [initTrav]
      constructor
      · show ((buildNodeData et det ∅ [] nd).1 ::
          (travLoop g nt et det (travFuel g) _).1.1).map _ |>.Nodup
        rw [List.map_cons, buildNodeData_fst]
        exact h5.1
      · show ((travLoop g nt et det (travFuel g) _).1.2).map _ |>.Nodup
        have := h5.2
        rwa [List.nil_append] at this
    | edge ed =>
      have hinv := roundInv_buildEdge nt det ed ∅
        {ed.source.id, ed.target.id} ∅ []
        (by simp) (by simp) (roundInv_init _ _)
      obtain ⟨_, _, _, hmem⟩ := hinv
      have h5 := travLoop_nodup g nt et det hn he (travFuel g)
        ⟨(buildEdgeData nt det ∅ [] ed).2.1, {ed.id},
          (buildEdgeData nt det ∅ [] ed).2.2, false, d⟩
        [] [ed.id]
        List.nodup_nil (List.nodup_singleton _)
        (fun x hx => absurd hx (List.not_mem_nil x))
        (fun x hx => by
          simp only [List.mem_singleton] at hx
          subst hx
          exact Finset.mem_singleton_self _)
        (fun h => by exact absurd h (by simp))
        (fun _ => ⟨fun x hx => (hmem x hx).1,
          fun x _ hx' => absurd hx' (List.not_mem_nil x)⟩)
      simp only [initTrav]
      constructor
      · show ((travLoop g nt et det (travFuel g) _).1.1).map _ |>.Nodup
        have := h5.1
        rwa [List.nil_append] at this
      · show ((buildEdgeData nt det ∅ [] ed).1 ::
          (travLoop g nt et det (travFuel g) _).1.2).map _ |>.Nodup
        rw [List.map_cons, buildEdgeData_fst]
        exact h5.2

/-!
## Round-0 characterization (claims C7, C8)
-/

theorem nodeDataFold_state (et : Option (List String)) :
    ∀ (l : List Ref) (acc : List RefId × Finset Nat × List Nat),
      (l.foldl (nodeDataStep et) acc).2.2 =
        acc.2.2 ++ frontierFilter et acc.2.1 l ∧
      (l.foldl (nodeDataStep et) acc).2.1 =
        acc.2.1 ∪ (frontierFilter et acc.2.1 l).toFinset
  | [], acc => by simp [frontierFilter]
  | r :: rs, acc => by
    simp only [List.foldl_cons, frontierFilter, nodeDataStep, append_entry]
    by_cases h : passesFilter et r.name ∧ r.id ∉ acc.2.1
    · simp only [if_pos h]
      have ih := nodeDataFold_state et rs
        (acc.1 ++ [refIdOf .edge r], insert r.id acc.2.1,
          acc.2.2 ++ [r.id])
      refine ⟨?_, ?_⟩
      · rw [ih.1]
        simp
      · rw [ih.2]
        simp only [List.toFinset_cons]
        rw [Finset.insert_union, Finset.union_insert]
    · simp only [if_neg h]
      exact nodeDataFold_state et rs
        (acc.1 ++ [refIdOf RefKind.edge r], acc.2.1, acc.2.2)

theorem initTrav_node_frontier (nt et : Option (List String)) (det : Bool)
    (nd : NodeDoc) (d : Int) :
    (initTrav nt et det (.node nd) d).2.entries =
      frontierFilter et ∅ nd.edges := by
  show (nd.edges.foldl (nodeDataStep et) ([], ∅, [])).2.2 = _
  rw [(nodeDataFold_state et nd.edges ([], ∅, [])).1]
  rfl

theorem buildEdgeData_frontier (nt : Option (List String)) (det : Bool)
    (ed : EdgeDoc) :
    (buildEdgeData nt det ∅ [] ed).2.2 =
      frontierFilter nt ∅ [ed.source, ed.target] := by
  simp only [buildEdgeData, append_entry, frontierFilter]
  split_ifs <;> rfl

theorem initTrav_edge_frontier (nt et : Option (List String)) (det : Bool)
    (ed : EdgeDoc) (d : Int) :
    (initTrav nt et det (.edge ed) d).2.entries =
      frontierFilter nt ∅ [ed.source, ed.target] := by
  show (buildEdgeData nt det ∅ [] ed).2.2 = _
  exact buildEdgeData_frontier nt det ed

theorem initTrav_node_out (nt et : Option (List String)) (det : Bool)
    (nd : NodeDoc) (d : Int) :
    (initTrav nt et det (.node nd) d).1 = .onodes [nodeRecord det nd] := by
  show RoundOut.onodes [(buildNodeData et det ∅ [] nd).1] = _
  rw [buildNodeData_fst]

theorem initTrav_edge_out (nt et : Option (List String)) (det : Bool)
    (ed : EdgeDoc) (d : Int) :
    (initTrav nt et det (.edge ed) d).1 = .oedges [edgeRecord det ed] := by
  show RoundOut.oedges [(buildEdgeData nt det ∅ [] ed).1] = _
  rw [buildEdgeData_fst]

/-- With no `source` the traversal starts at the caller's root: the
first emitted node record is the root's, listing all its incident
edge references. -/
theorem traverse_none_head (g : Graph) (root : NodeDoc) (det : Bool)
    (d : Int) (nt et : Option (List String)) :
    (traverse g root none det d nt et).map (fun r => r.nodes.head?) =
      .ok (some (nodeRecord det root)) := by
  unfold traverse
  simp only [resolveEntry, Except.map, initTrav]
  simp only [List.singleton_append, List.head?_cons, buildNodeData_fst]

/-- The same for the streaming form: the first yielded line is the
root's record. -/
theorem traverse_process_none_head (g : Graph) (root : NodeDoc)
    (det : Bool) (d : Int) (nt et : Option (List String)) :
    (traverse_process g root none det d nt et).map List.head? =
      .ok (some (Chunk.nodes [nodeRecord det root])) := by
  unfold traverse_process
  simp only [resolveEntry, Except.map, initTrav, chunkOf]
  simp only [List.head?_cons, buildNodeData_fst]

/-!
## Retry-loop lemmas (claim C3)
-/

/-- Full characterization of `create_system_admin`'s retry loop from
retry counter `r`: the log lists consecutive attempt numbers, at most
`M + 1 - r` more retries happen, every retried attempt was transient,
a transient error surfaces only once the counter has passed `M`, and
any other outcome is determined by the first non-transient attempt. -/
theorem retry_spec (M : Nat) (body : Nat → AttemptOutcome) (r : Nat)
    (hr : r ≤ M + 1) :
    (create_system_admin_loop M body r).2 =
      List.range' (r + 1) (create_system_admin_loop M body r).2.length ∧
    (create_system_admin_loop M body r).2.length + r ≤ M + 1 ∧
    (∀ k, r ≤ k → k < r + (create_system_admin_loop M body r).2.length →
      body k = .transientErr) ∧
    ((create_system_admin_loop M body r).1 = .error .transientErr →
      r + (create_system_admin_loop M body r).2.length = M + 1 ∧
      body (M + 1) = .transientErr) ∧
    ((create_system_admin_loop M body r).1 = .error .otherErr →
      body (r + (create_system_admin_loop M body r).2.length) = .otherErr) ∧
    ((create_system_admin_loop M body r).1 = .error .systemErr →
      body (r + (create_system_admin_loop M body r).2.length) =
        .noInsertedId) ∧
    (∀ s, (create_system_admin_loop M body r).1 = .ok s →
      ∃ i, body (r + (create_system_admin_loop M body r).2.length) =
        .inserted i ∧ s = adminCreatedMsg i) := by
  rw [create_system_admin_loop]
  cases hb : body r with
  | inserted i =>
    simp only [List.length_nil, List.range']
    refine ⟨by trivial, by omega, fun k h1 h2 => by omega, ?_, ?_, ?_, ?_⟩
    · intro h
      exact absurd h (by simp)
    · intro h
      exact absurd h (by simp)
    · intro h
      exact absurd h (by simp)
    · intro s hs
      simp only [Except.ok.injEq] at hs
      exact ⟨i, by simpa using hb, hs.symm⟩
  | noInsertedId =>
    simp only [List.length_nil, List.range']
    refine ⟨by trivial, by omega, fun k h1 h2 => by omega, ?_, ?_, ?_, ?_⟩
    · intro h
      exact absurd h (by simp)
    · intro h
      exact absurd h (by simp)
    · intro _
      simpa using hb
    · intro s hs
      exact absurd hs (by simp)
  | otherErr =>
    simp only [List.length_nil, List.range']
    refine ⟨by trivial, by omega, fun k h1 h2 => by omega, ?_, ?_, ?_, ?_⟩
    · intro h
      exact absurd h (by simp)
    · intro _
      simpa using hb
    · intro h
      exact absurd h (by simp)
    · intro s hs
      exact absurd hs (by simp)
  | transientErr =>
    by_cases hle : r ≤ M
    · simp only [dif_pos hle]
      have ih := retry_spec M body (r + 1) (by omega)
      obtain ⟨ih1, ih2, ih3, ih4, ih5, ih6, ih7⟩ := ih
      have hlen : ((r + 1) :: (create_system_admin_loop M body (r + 1)).2).length =
          (create_system_admin_loop M body (r + 1)).2.length + 1 := by
        simp
      refine ⟨?_, ?_, ?_, ?_, ?_, ?_, ?_⟩
      · rw [hlen, List.range'_succ]
        exact congrArg _ ih1
      · simp only [hlen]
        omega
      · intro k h1 h2
        rcases Nat.eq_or_lt_of_le h1 with h1 | h1
        · rw [← h1]
          exact hb
        · exact ih3 k h1 (by simp only [hlen] at h2; omega)
      · intro h
        obtain ⟨q1, q2⟩ := ih4 h
        refine ⟨by simp only [hlen]; omega, q2⟩
      · intro h
        have := ih5 h
        rw [show r + ((r + 1) :: (create_system_admin_loop M body (r + 1)).2).length =
          r + 1 + (create_system_admin_loop M body (r + 1)).2.length from by
            simp only [hlen]; omega]
        exact this
      · intro h
        have := ih6 h
        rw [show r + ((r + 1) :: (create_system_admin_loop M body (r + 1)).2).length =
          r + 1 + (create_system_admin_loop M body (r + 1)).2.length from by
            simp only [hlen]; omega]
        exact this
      · intro s hs
        obtain ⟨i, q1, q2⟩ := ih7 s hs
        refine ⟨i, ?_, q2⟩
        rw [show r + ((r + 1) :: (create_system_admin_loop M body (r + 1)).2).length =
          r + 1 + (create_system_admin_loop M body (r + 1)).2.length from by
            simp only [hlen]; omega]
        exact q1
    · simp only [dif_neg hle]
      have hreq : r = M + 1 := by omega
      simp only [List.length_nil, List.range']
      refine ⟨by trivial, by omega, fun k h1 h2 => by omega, ?_, ?_, ?_, ?_⟩
      · intro _
        exact ⟨by omega, by rw [← hreq]; exact hb⟩
      · intro h
        exact absurd h (by simp)
      · intro h
        exact absurd h (by simp)
      · intro s hs
        exact absurd hs (by simp)
termination_by M + 1 - r
decreasing_by omega

/-!
## System-root creation lemmas (claim C9)
-/

theorem filter_oid_len_le_one :
    ∀ (c : List AdminNodeDoc), (c.map AdminNodeDoc.oid).Nodup →
      ∀ i, (c.filter (fun d => d.oid = i)).length ≤ 1
  | [], _, i => by simp
  | d :: c, h, i => by
    simp only [List.map_cons, List.nodup_cons] at h
    by_cases hd : d.oid = i
    · have hnil : c.filter (fun x => x.oid = i) = [] := by
        rw [List.filter_eq_nil_iff]
        intro a ha hpa
        exact h.1 (hd ▸ (of_decide_eq_true hpa) ▸ List.mem_map_of_mem _ ha)
      simp [List.filter_cons, hd, hnil]
    · simp only [List.filter_cons]
      rw [if_neg (by simpa using hd)]
      exact filter_oid_len_le_one c h.2 i

theorem find_by_id_none_filter (c : List AdminNodeDoc) (i : Nat)
    (h : find_by_id c i = none) :
    c.filter (fun d => d.oid = i) = [] := by
  rw [List.filter_eq_nil_iff]
  intro a ha hpa
  have := List.find?_eq_none.mp h a ha
  exact this hpa

theorem find_by_id_isSome_filter (c : List AdminNodeDoc) (i : Nat)
    (h : (find_by_id c i).isSome) :
    1 ≤ (c.filter (fun d => d.oid = i)).length := by
  obtain ⟨d, hd⟩ := Option.isSome_iff_exists.mp h
  have hmem := List.mem_of_find?_eq_some hd
  have hpred := List.find?_some hd
  have : d ∈ c.filter (fun x => x.oid = i) :=
    List.mem_filter.mpr ⟨hmem, hpred⟩
  calc 1 = [d].length := rfl
  _ ≤ _ := List.Sublist.length_le (List.singleton_sublist.mpr this)

theorem find_by_id_isSome_iff (c : List AdminNodeDoc) (i : Nat) :
    (find_by_id c i).isSome ↔ ∃ d ∈ c, d.oid = i := by
  simp [find_by_id, List.find?_isSome]

/-- What one lazy-creation step does: afterwards exactly one document
carries the id (given a duplicate-free store), other ids are
untouched, uniqueness of ids is preserved, existing documents are
kept, and the only possible new document is `default_data i`. -/
theorem ensureRoot_spec (c : List AdminNodeDoc) (i : Nat)
    (hc : (c.map AdminNodeDoc.oid).Nodup) :
    ((ensureRoot c i).filter (fun d => d.oid = i)).length = 1 ∧
    (∀ j, j ≠ i → (ensureRoot c i).filter (fun d => d.oid = j) =
      c.filter (fun d => d.oid = j)) ∧
    ((ensureRoot c i).map AdminNodeDoc.oid).Nodup ∧
    (∀ d ∈ c, d ∈ ensureRoot c i) ∧
    (∀ d ∈ ensureRoot c i, d ∈ c ∨ d = default_data i) ∧
    (∃ d ∈ ensureRoot c i, d.oid = i) := by
  by_cases h : (find_by_id c i).isSome
  · have hee : ensureRoot c i = c := by simp [ensureRoot, h]
    rw [hee]
    have h1 := filter_oid_len_le_one c hc i
    have h2 := find_by_id_isSome_filter c i h
    refine ⟨by omega, fun j hj => rfl, hc, fun d hd => hd,
      fun d hd => Or.inl hd, ?_⟩
    exact (find_by_id_isSome_iff c i).mp h
  · have hn : find_by_id c i = none := by
      cases hfind : find_by_id c i
      · rfl
      · exact absurd (by simp [hfind]) h
    have hee : ensureRoot c i = c ++ [default_data i] := by
      simp [ensureRoot, hn, insert_one]
    have hfilnil := find_by_id_none_filter c i hn
    have hnotin : i ∉ c.map AdminNodeDoc.oid := by
      intro hmem
      obtain ⟨d, hd, hoid⟩ := List.mem_map.mp hmem
      have := List.find?_eq_none.mp hn d hd
      exact this (by simpa using hoid)
    rw [hee]
    refine ⟨?_, ?_, ?_, ?_, ?_, ?_⟩
    · rw [List.filter_append, hfilnil]
      simp [default_data]
    · intro j hj
      rw [List.filter_append]
      have : ([default_data i].filter (fun d => d.oid = j)) = [] := by
        simp [default_data, hj.symm]
      rw [this, List.append_nil]
    · rw [List.map_append]
      exact List.Nodup.append hc (by simp)
        (by
          intro x hx hx'
          simp only [List.map_cons, List.map_nil, List.mem_singleton] at hx'
          subst hx'
          exact hnotin hx)
    · intro d hd
      exact List.mem_append_left _ hd
    · intro d hd
      rcases List.mem_append.mp hd with hd | hd
      · exact Or.inl hd
      · simp only [List.mem_singleton] at hd
        exact Or.inr hd
    · exact ⟨default_data i, List.mem_append_right _ (by simp), rfl⟩

theorem ensureRoot_of_present (c : List AdminNodeDoc) (i : Nat)
    (h : (find_by_id c i).isSome) : ensureRoot c i = c := by
  simp [ensureRoot, h]

/-- Combined effect of the two lazy system-root creations of
`create_system_admin`. -/
theorem create_roots_spec (c : List AdminNodeDoc)
    (hc : (c.map AdminNodeDoc.oid).Nodup) :
    ((create_system_admin_roots c).filter
      (fun d => d.oid = PUBLIC_ROOT_ID)).length = 1 ∧
    ((create_system_admin_roots c).filter
      (fun d => d.oid = SUPER_ROOT_ID)).length = 1 ∧
    ((create_system_admin_roots c).map AdminNodeDoc.oid).Nodup ∧
    (∀ d ∈ c, d ∈ create_system_admin_roots c) ∧
    (∀ d ∈ create_system_admin_roots c,
      d ∈ c ∨ d = default_data PUBLIC_ROOT_ID ∨
        d = default_data SUPER_ROOT_ID) ∧
    create_system_admin_roots (create_system_admin_roots c) =
      create_system_admin_roots c := by
  obtain ⟨p1, p2, p3, p4, p5, p6⟩ := ensureRoot_spec c PUBLIC_ROOT_ID hc
  obtain ⟨q1, q2, q3, q4, q5, q6⟩ :=
    ensureRoot_spec (ensureRoot c PUBLIC_ROOT_ID) SUPER_ROOT_ID p3
  have hPS : PUBLIC_ROOT_ID ≠ SUPER_ROOT_ID := by decide
  refine ⟨?_, q1, q3, ?_, ?_, ?_⟩
  · rw [show create_system_admin_roots c =
      ensureRoot (ensureRoot c PUBLIC_ROOT_ID) SUPER_ROOT_ID from rfl]
    rw [q2 PUBLIC_ROOT_ID hPS]
    exact p1
  · intro d hd
    exact q4 d (p4 d hd)
  · intro d hd
    rcases q5 d hd with hd | hd
    · rcases p5 d hd with hd | hd
      · exact Or.inl hd
      · exact Or.inr (Or.inl hd)
    · exact Or.inr (Or.inr hd)
  · have hpresP : (find_by_id (create_system_admin_roots c)
        PUBLIC_ROOT_ID).isSome := by
      rw [find_by_id_isSome_iff]
      obtain ⟨d, hd, hoid⟩ := p6
      exact ⟨d, q4 d hd, hoid⟩
    have hpresS : (find_by_id (create_system_admin_roots c)
        SUPER_ROOT_ID).isSome := by
      rw [find_by_id_isSome_iff]
      exact q6
    show ensureRoot (ensureRoot (create_system_admin_roots c)
      PUBLIC_ROOT_ID) SUPER_ROOT_ID = _
    rw [ensureRoot_of_present _ _ hpresP, ensureRoot_of_present _ _ hpresS]

/-!
## Start-anchor resolution helpers (claim C8)
-/

theorem traverse_resolve_error (g : Graph) (root : NodeDoc) (s : SrcRef)
    (det : Bool) (d : Int) (nt et : Option (List String))
    (h : resolveEntry g (some s) root = .error "Invalid source!") :
    traverse g root (some s) det d nt et = .error "Invalid source!" ∧
    traverse_process g root (some s) det d nt et =
      .error "Invalid source!" := by
  unfold traverse traverse_process
  rw [h]
  exact ⟨rfl, rfl⟩

theorem resolveEntry_n_notfound (g : Graph) (root : NodeDoc) (s : SrcRef)
    (hk : s.kind = .n) (h : g.nodes.find? (fun nd => nd.id = s.id) = none) :
    resolveEntry g (some s) root = .error "Invalid source!" := by
  obtain ⟨k, i⟩ := s
  simp only at hk
  subst hk
  simp only [resolveEntry]
  rw [h]

theorem resolveEntry_e_notfound (g : Graph) (root : NodeDoc) (s : SrcRef)
    (hk : s.kind = .e) (h : g.edges.find? (fun ed => ed.id = s.id) = none) :
    resolveEntry g (some s) root = .error "Invalid source!" := by
  obtain ⟨k, i⟩ := s
  simp only at hk
  subst hk
  simp only [resolveEntry]
  rw [h]

theorem resolveEntry_o (g : Graph) (root : NodeDoc) (s : SrcRef)
    (hk : s.kind = .o) :
    resolveEntry g (some s) root = .error "Invalid source!" := by
  obtain ⟨k, i⟩ := s
  simp only at hk
  subst hk
  simp only [resolveEntry]
  cases g.objects.find? (fun od => od.id = i) <;> rfl

/-!
## Concrete reference graphs
-/

/-- Graph for the access-control claim: the traversing root is node 1
(owned by root 1); node 2 is owned by a different root (900) and
grants nobody anything (`all = NO_ACCESS`, no explicit entries) —
its effective level for root 1 is `NO_ACCESS`, below `READ`.  One
edge (id 11) joins them. -/
def accessGraph : Graph :=
  { nodes :=
      [ ⟨1, "", some 1, noAccess, "", [⟨11, ""⟩]⟩,
        ⟨2, "X", some 900, noAccess, "", [⟨11, ""⟩]⟩ ],
    edges := [ ⟨11, "", some 900, noAccess, "", ⟨1, ""⟩, ⟨2, "X"⟩⟩ ],
    objects := [] }

/-- The traversing root's own node anchor in `accessGraph`. -/
def accessRoot : NodeDoc := ⟨1, "", some 1, noAccess, "", [⟨11, ""⟩]⟩

/-- Graph for the round-0 filter claim: the start node's only
incident edge has type tag `"X"`. -/
def filterGraph : Graph :=
  { nodes :=
      [ ⟨1, "", some 1, noAccess, "", [⟨21, "X"⟩]⟩,
        ⟨2, "A", some 1, noAccess, "", [⟨21, "X"⟩]⟩ ],
    edges := [ ⟨21, "X", some 1, noAccess, "", ⟨1, ""⟩, ⟨2, "A"⟩⟩ ],
    objects := [] }

/-- The start node of `filterGraph`. -/
def filterRoot : NodeDoc := ⟨1, "", some 1, noAccess, "", [⟨21, "X"⟩]⟩

/-!
## The claims
-/

/-- C1: the claim states that an anchor whose effective permission
level for the traversing root is below READ is absent from the
emitted result.  The traversal code performs no access-control
filtering at all: in `accessGraph`, node 2 is owned by root 900 with
`access.all = NO_ACCESS` (effective level `NO_ACCESS` for traversing
root 1, below READ), yet both the batch and the streaming traversal
emit its record.  This theorem evaluates the code at that failing
input, witnessing the divergence between the code and §4.2/§4.5 of
the specification. -/
theorem claim_C1_access_not_enforced :
    effectiveLevel 1 (some 900) noAccess = .NO_ACCESS ∧
    (traverse accessGraph accessRoot none false (-1) none none).map
      (fun r => r.nodes.map (fun x => x.id.id)) = .ok [1, 2] ∧
    (traverse_process accessGraph accessRoot none false (-1) none none).map
      (fun l => (combineChunks l).nodes.map (fun x => x.id.id)) =
      .ok [1, 2] := by
  exact ⟨rfl, by decide, by decide⟩

/-- C4: for every graph, start, depth and filter pair, the batch
traversal result is exactly the streamed chunks recombined (edges
with edges, nodes with nodes, in order) — the two presentations emit
the same records and differ only in delivery granularity. -/
theorem claim_C4_stream_batch_equiv (g : Graph) (root : NodeDoc)
    (source : Option SrcRef) (det : Bool) (d : Int)
    (nt et : Option (List String)) :
    traverse g root source det d nt et =
      Except.map combineChunks (traverse_process g root source det d nt et) :=
  traverse_eq_combineChunks g root source det d nt et

/-- C5: over duplicate-free collections, every node id and every edge
id is emitted at most once by the batch and by the streaming
traversal; and `append_entry` admits an id into the frontier exactly
when it passes the type filter and is not yet in the visited set,
adding it to that set at the same moment. -/
theorem claim_C5_unique_emission :
    (∀ (g : Graph) (root : NodeDoc) (source : Option SrcRef) (det : Bool)
       (d : Int) (nt et : Option (List String)),
      (g.nodes.map NodeDoc.id).Nodup → (g.edges.map EdgeDoc.id).Nodup →
      ∀ r, traverse g root source det d nt et = .ok r →
        (r.nodes.map (fun x => x.id.id)).Nodup ∧
        (r.edges.map (fun x => x.id.id)).Nodup) ∧
    (∀ (g : Graph) (root : NodeDoc) (source : Option SrcRef) (det : Bool)
       (d : Int) (nt et : Option (List String)),
      (g.nodes.map NodeDoc.id).Nodup → (g.edges.map EdgeDoc.id).Nodup →
      ∀ l, traverse_process g root source det d nt et = .ok l →
        ((combineChunks l).nodes.map (fun x => x.id.id)).Nodup ∧
        ((combineChunks l).edges.map (fun x => x.id.id)).Nodup) ∧
    (∀ (f : Option (List String)) (c : Finset Nat) (en : List Nat)
       (k : RefKind) (a : Ref),
      (passesFilter f a.name ∧ a.id ∉ c →
        append_entry f c en k a =
          (insert a.id c, en ++ [a.id], refIdOf k a)) ∧
      (¬ (passesFilter f a.name ∧ a.id ∉ c) →
        append_entry f c en k a = (c, en, refIdOf k a))) := by
  refine ⟨?_, ?_, ?_⟩
  · intro g root source det d nt et hn he r hr
    exact traverse_ids_nodup g root source det d nt et hn he r hr
  · intro g root source det d nt et hn he l hl
    have hb := traverse_eq_combineChunks g root source det d nt et
    rw [hl] at hb
    exact traverse_ids_nodup g root source det d nt et hn he
      (combineChunks l) hb
  · intro f c en k a
    constructor
    · intro h
      simp [append_entry, h]
    · intro h
      simp [append_entry, h]

/-- C5 witness: concrete instance on the reference chain at depth 0. -/
theorem claim_C5_witness :
    (chainGraph.nodes.map NodeDoc.id).Nodup ∧
    (chainGraph.edges.map EdgeDoc.id).Nodup ∧
    ((TraverseResult.mk []
        [⟨⟨.node, "", 1⟩, [⟨.edge, "", 11⟩], none⟩]).nodes.map
      (fun x => x.id.id)).Nodup := by
  refine ⟨by decide, by decide, ?_⟩
  exact (claim_C5_unique_emission.1 chainGraph chainRoot none false 0
    none none (by decide) (by decide)
    ⟨[], [⟨⟨.node, "", 1⟩, [⟨.edge, "", 11⟩], none⟩]⟩ (by decide)).1

/-- C6: the traversal loop terminates on every finite graph at every
depth, including negative: `travFuel g` rounds always drive the loop
guard (frontier nonempty and depth nonzero) to false, and any extra
fuel leaves both the batch and the streaming loop's results
unchanged. -/
theorem claim_C6_termination (g : Graph) (nt et : Option (List String))
    (det : Bool) (st : TravState) (fuel : Nat) :
    (¬ travGuard ((travLoop g nt et det (travFuel g) st).2)) ∧
    (travFuel g ≤ fuel →
      travLoop g nt et det fuel st =
        travLoop g nt et det (travFuel g) st ∧
      streamLoop g nt et det fuel st =
        streamLoop g nt et det (travFuel g) st) :=
  ⟨travLoop_halts_fuel g nt et det st,
   fun hf => ⟨travLoop_stable g nt et det st fuel hf,
     streamLoop_stable g nt et det st fuel hf⟩⟩

/-- C6 witness: concrete instance on the reference chain with one
unit of extra fuel, starting from the traversal's own round-0 state
at unbounded depth. -/
theorem claim_C6_witness :
    travFuel chainGraph ≤ travFuel chainGraph + 1 ∧
    (¬ travGuard ((travLoop chainGraph none none false
      (travFuel chainGraph)
      (initTrav none none false (.node chainRoot) (-1)).2).2)) ∧
    travLoop chainGraph none none false (travFuel chainGraph + 1)
        (initTrav none none false (.node chainRoot) (-1)).2 =
      travLoop chainGraph none none false (travFuel chainGraph)
        (initTrav none none false (.node chainRoot) (-1)).2 := by
  refine ⟨Nat.le_succ _, ?_, ?_⟩
  · exact (claim_C6_termination chainGraph none none false
      (initTrav none none false (.node chainRoot) (-1)).2
      (travFuel chainGraph + 1)).1
  · exact ((claim_C6_termination chainGraph none none false
      (initTrav none none false (.node chainRoot) (-1)).2
      (travFuel chainGraph + 1)).2 (Nat.le_succ _)).1

/-- C10: both HTTP endpoints default an omitted `depth` to 1, so a
request without `depth` performs exactly one expansion round past the
start entity — on the reference chain this returns 1 edge and 1 node
(2 streamed lines), which is neither the depth-0 result (start
entity alone) nor the unbounded full graph. -/
theorem claim_C10_default_depth :
    (∀ (g : Graph) (root : NodeDoc) (source : Option SrcRef) (det : Bool)
       (nt et : Option (List String)),
      traverseEndpoint g root source det none nt et =
        traverse g root source det 1 nt et) ∧
    (∀ (g : Graph) (root : NodeDoc) (source : Option SrcRef) (det : Bool)
       (nt et : Option (List String)),
      traverseStreamEndpoint g root source det none nt et =
        traverse_process g root source det 1 nt et) ∧
    (traverseEndpoint chainGraph chainRoot none false none none none).map
      (fun r => (r.edges.length, r.nodes.length)) = .ok (1, 1) ∧
    (traverseStreamEndpoint chainGraph chainRoot none false none
      none none).map List.length = .ok 2 ∧
    traverseEndpoint chainGraph chainRoot none false none none none ≠
      traverse chainGraph chainRoot none false 0 none none ∧
    traverseEndpoint chainGraph chainRoot none false none none none ≠
      traverse chainGraph chainRoot none false (-1) none none := by
  exact ⟨fun g root source det nt et => rfl,
    fun g root source det nt et => rfl,
    by decide, by decide, by decide, by decide⟩

/-- C2: depth semantics.  A run with depth `d ≥ 0` yields exactly the
first `d + 1` lines (round 0 plus at most `d` expansion rounds, and
exactly `d` whenever the unbounded run reaches that far, i.e. no
earlier frontier emptied) of the unbounded run; every negative depth
behaves as unbounded; depth 0 emits the start entity alone; and on
the reference 4-node/3-edge chain, batch depth `d ∈ 0..6` returns
`⌊(d+1)/2⌋` edges and `⌊d/2⌋ + 1` nodes. -/
theorem claim_C2_depth_semantics :
    (∀ (g : Graph) (root : NodeDoc) (source : Option SrcRef) (det : Bool)
       (nt et : Option (List String)) (d : Int), 0 ≤ d →
      traverse_process g root source det d nt et =
        Except.map (fun l => l.take (d.toNat + 1))
          (traverse_process g root source det (-1) nt et)) ∧
    (∀ (g : Graph) (root : NodeDoc) (source : Option SrcRef) (det : Bool)
       (nt et : Option (List String)) (d : Int), d < 0 →
      traverse_process g root source det d nt et =
        traverse_process g root source det (-1) nt et) ∧
    (∀ (g : Graph) (root : NodeDoc) (source : Option SrcRef) (det : Bool)
       (nt et : Option (List String)) (l : List Chunk),
      traverse_process g root source det 0 nt et = .ok l →
        l.length = 1) ∧
    ((List.range 7).map (fun i =>
        (traverse chainGraph chainRoot none false (Int.ofNat i)
          none none).map (fun r => (r.edges.length, r.nodes.length))) =
      (List.range 7).map (fun i => .ok ((i + 1) / 2, i / 2 + 1))) := by
  refine ⟨?_, ?_, ?_, by decide⟩
  · intro g root source det nt et d hd
    exact traverse_process_take g root source det d nt et hd
  · intro g root source det nt et d hd
    exact traverse_process_neg g root source det d nt et hd
  · intro g root source det nt et l hl
    rw [traverse_process_zero] at hl
    cases hres : resolveEntry g source root with
    | error e =>
      rw [hres] at hl
      exact absurd hl (by simp [Except.map])
    | ok ent =>
      rw [hres] at hl
      simp only [Except.map, Except.ok.injEq] at hl
      rw [← hl]
      rfl

/-- C2 witness: concrete instance on the reference chain, depth 2. -/
theorem claim_C2_witness :
    (0 : Int) ≤ 2 ∧
    traverse_process chainGraph chainRoot none false 2 none none =
      Except.map (fun l => l.take ((2 : Int).toNat + 1))
        (traverse_process chainGraph chainRoot none false (-1)
          none none) :=
  ⟨by decide, claim_C2_depth_semantics.1 chainGraph chainRoot none false
    none none 2 (by decide)⟩

/-- C3 counterexample: the claim says a transient error is retried up
to the fixed bound `SESSION_MAX_TRANSACTION_RETRY` and re-raised once
the bound is exceeded.  The guard is `retry <= M` checked before
incrementing, so with bound `M = 1` a persistently transient store
yields 2 logged retries (`Retrying [1/1]`, `Retrying [2/1]`) — more
than the bound — before the error surfaces. -/
theorem claim_C3_counterexample :
    create_system_admin_retry 1 (fun _ => .transientErr) =
      (.error .transientErr, [1, 2]) ∧ ¬ ((2 : Nat) ≤ 1) := by
  constructor
  · simp [create_system_admin_retry, create_system_admin_loop]
  · decide

/-- C3 (amended): the transaction body is retried on transient errors
up to `SESSION_MAX_TRANSACTION_RETRY + 1` times (guard `retry <= M`
before increment); each retry is logged with its attempt number
(consecutively from 1); every retried attempt had failed with the
transient label; a transient error surfaces only after all
`M + 2` attempts were transient (retries exhausted); a non-transient
error or a failed insert is re-raised at once; success returns the
created-admin message of the inserted id. -/
theorem claim_C3_retry_amended (M : Nat) (body : Nat → AttemptOutcome) :
    (create_system_admin_retry M body).2 =
      List.range' 1 (create_system_admin_retry M body).2.length ∧
    (create_system_admin_retry M body).2.length ≤ M + 1 ∧
    (∀ k < (create_system_admin_retry M body).2.length,
      body k = .transientErr) ∧
    ((create_system_admin_retry M body).1 = .error .transientErr →
      (create_system_admin_retry M body).2.length = M + 1 ∧
      body (M + 1) = .transientErr) ∧
    ((create_system_admin_retry M body).1 = .error .otherErr →
      body (create_system_admin_retry M body).2.length = .otherErr) ∧
    ((create_system_admin_retry M body).1 = .error .systemErr →
      body (create_system_admin_retry M body).2.length = .noInsertedId) ∧
    (∀ s, (create_system_admin_retry M body).1 = .ok s →
      ∃ i, body (create_system_admin_retry M body).2.length =
        .inserted i ∧ s = adminCreatedMsg i) := by
  obtain ⟨h1, h2, h3, h4, h5, h6, h7⟩ := retry_spec M body 0 (by omega)
  refine ⟨?_, by simpa using h2, ?_, ?_, ?_, ?_, ?_⟩
  · simpa using h1
  · intro k hk
    exact h3 k (by omega) (by simpa using hk)
  · intro h
    obtain ⟨q1, q2⟩ := h4 h
    exact ⟨by simpa using q1, q2⟩
  · intro h
    simpa using h5 h
  · intro h
    simpa using h6 h
  · intro s hs
    obtain ⟨i, q1, q2⟩ := h7 s hs
    exact ⟨i, by simpa using q1, q2⟩

/-- C3 witness: with bound 1 and a persistently transient store the
surfaced error is transient and exactly `1 + 1` retries were
performed. -/
theorem claim_C3_witness :
    (create_system_admin_retry 1 (fun _ => AttemptOutcome.transientErr)).2.length
      = 1 + 1 ∧
    (fun _ => AttemptOutcome.transientErr) (1 + 1) =
      AttemptOutcome.transientErr :=
  (claim_C3_retry_amended 1 (fun _ => .transientErr)).2.2.2.1
    (by simp [create_system_admin_retry, create_system_admin_loop])

/-- C7 counterexample: the claim says an incident entity whose type
is excluded by the filter does not appear among the emitted incident
ids of the round-0 record.  In `filterGraph` the start node's only
incident edge has type `"X"`, excluded by the filter `{"Y"}`, yet its
ref-id appears in the emitted record's `edges` list (`append_entry`
returns the ref-id unconditionally; the filter gates only the
frontier). -/
theorem claim_C7_counterexample :
    passesFilter (some ["Y"]) "X" = false ∧
    (traverse filterGraph filterRoot none false 0 none
      (some ["Y"])).map (fun r => r.nodes.map (fun x => x.edges)) =
      .ok [[⟨.edge, "X", 21⟩]] := by
  exact ⟨rfl, by decide⟩

/-- C7 (amended): round 0 emits the start entity's record listing ALL
of its immediately incident ref-ids unconditionally (edges of a Node
via `nodeRecord`; source and target of an Edge via `edgeRecord`); the
type filters and the visited-set deduplication determine only the
round-0 frontier — the ids expanded in round 1 — which is exactly the
first-occurrence subsequence of incident ids passing the filter
(`frontierFilter`). -/
theorem claim_C7_round0_amended :
    (∀ (nt et : Option (List String)) (det : Bool) (nd : NodeDoc)
       (d : Int),
      (initTrav nt et det (.node nd) d).1 = .onodes [nodeRecord det nd] ∧
      (initTrav nt et det (.node nd) d).2.entries =
        frontierFilter et ∅ nd.edges) ∧
    (∀ (nt et : Option (List String)) (det : Bool) (ed : EdgeDoc)
       (d : Int),
      (initTrav nt et det (.edge ed) d).1 = .oedges [edgeRecord det ed] ∧
      (initTrav nt et det (.edge ed) d).2.entries =
        frontierFilter nt ∅ [ed.source, ed.target]) ∧
    (∀ (g : Graph) (root : NodeDoc) (det : Bool) (d : Int)
       (nt et : Option (List String)),
      (traverse g root none det d nt et).map (fun r => r.nodes.head?) =
        .ok (some (nodeRecord det root))) :=
  ⟨fun nt et det nd d =>
    ⟨initTrav_node_out nt et det nd d,
     initTrav_node_frontier nt et det nd d⟩,
   fun nt et det ed d =>
    ⟨initTrav_edge_out nt et det ed d,
     initTrav_edge_frontier nt et det ed d⟩,
   fun g root det d nt et => traverse_none_head g root det d nt et⟩

/-- C8: an omitted `source` starts the traversal at the caller's root
anchor (its record is the first node emitted, in batch and stream); a
`source` whose document is absent from its collection, or which
resolves to a collection holding neither nodes nor edges, makes both
forms fail with `Invalid source!` before emitting anything. -/
theorem claim_C8_source_resolution :
    (∀ (g : Graph) (root : NodeDoc) (det : Bool) (d : Int)
       (nt et : Option (List String)),
      resolveEntry g none root = .ok (.node root) ∧
      (traverse g root none det d nt et).map (fun r => r.nodes.head?) =
        .ok (some (nodeRecord det root)) ∧
      (traverse_process g root none det d nt et).map List.head? =
        .ok (some (Chunk.nodes [nodeRecord det root]))) ∧
    (∀ (g : Graph) (root : NodeDoc) (s : SrcRef) (det : Bool) (d : Int)
       (nt et : Option (List String)), s.kind = .n →
      g.nodes.find? (fun nd => nd.id = s.id) = none →
      traverse g root (some s) det d nt et = .error "Invalid source!" ∧
      traverse_process g root (some s) det d nt et =
        .error "Invalid source!") ∧
    (∀ (g : Graph) (root : NodeDoc) (s : SrcRef) (det : Bool) (d : Int)
       (nt et : Option (List String)), s.kind = .e →
      g.edges.find? (fun ed => ed.id = s.id) = none →
      traverse g root (some s) det d nt et = .error "Invalid source!" ∧
      traverse_process g root (some s) det d nt et =
        .error "Invalid source!") ∧
    (∀ (g : Graph) (root : NodeDoc) (s : SrcRef) (det : Bool) (d : Int)
       (nt et : Option (List String)), s.kind = .o →
      traverse g root (some s) det d nt et = .error "Invalid source!" ∧
      traverse_process g root (some s) det d nt et =
        .error "Invalid source!") := by
  refine ⟨?_, ?_, ?_, ?_⟩
  · intro g root det d nt et
    exact ⟨rfl, traverse_none_head g root det d nt et,
      traverse_process_none_head g root det d nt et⟩
  · intro g root s det d nt et hk h
    exact traverse_resolve_error g root s det d nt et
      (resolveEntry_n_notfound g root s hk h)
  · intro g root s det d nt et hk h
    exact traverse_resolve_error g root s det d nt et
      (resolveEntry_e_notfound g root s hk h)
  · intro g root s det d nt et hk
    exact traverse_resolve_error g root s det d nt et
      (resolveEntry_o g root s hk)

/-- C8 witness: concrete invalid sources on the reference chain. -/
theorem claim_C8_witness :
    (SrcRef.mk .n 999).kind = .n ∧
    chainGraph.nodes.find? (fun nd => nd.id = (SrcRef.mk .n 999).id) =
      none ∧
    traverse chainGraph chainRoot (some (SrcRef.mk .n 999)) false 1
      none none = .error "Invalid source!" :=
  ⟨rfl, by decide,
    (claim_C8_source_resolution.2.1 chainGraph chainRoot
      (SrcRef.mk .n 999) false 1 none none rfl (by decide)).1⟩

/-- C9: `create_system_admin` creates the two singleton system-root
node documents lazily (each inserted only when absent, as
`default_data`: `root = null`, `access = {all: NO_ACCESS, roots:
{anchors: {}}}`) and idempotently: on a duplicate-free store the
result holds exactly one document per system root, keeps every
existing document, adds nothing but the two defaults, and running the
operation again changes nothing. -/
theorem claim_C9_singleton_roots (c : List AdminNodeDoc)
    (hc : (c.map AdminNodeDoc.oid).Nodup) :
    ((create_system_admin_roots c).filter
      (fun d => d.oid = PUBLIC_ROOT_ID)).length = 1 ∧
    ((create_system_admin_roots c).filter
      (fun d => d.oid = SUPER_ROOT_ID)).length = 1 ∧
    ((create_system_admin_roots c).map AdminNodeDoc.oid).Nodup ∧
    (∀ d ∈ c, d ∈ create_system_admin_roots c) ∧
    (∀ d ∈ create_system_admin_roots c,
      d ∈ c ∨ d = default_data PUBLIC_ROOT_ID ∨
        d = default_data SUPER_ROOT_ID) ∧
    create_system_admin_roots (create_system_admin_roots c) =
      create_system_admin_roots c ∧
    (∀ i, (find_by_id c i).isSome → ensureRoot c i = c) ∧
    (∀ i, find_by_id c i = none →
      ensureRoot c i = c ++ [default_data i]) ∧
    (default_data PUBLIC_ROOT_ID).root = none ∧
    (default_data PUBLIC_ROOT_ID).access = ⟨.NO_ACCESS, []⟩ ∧
    (default_data SUPER_ROOT_ID).root = none ∧
    (default_data SUPER_ROOT_ID).access = ⟨.NO_ACCESS, []⟩ := by
  obtain ⟨h1, h2, h3, h4, h5, h6⟩ := create_roots_spec c hc
  refine ⟨h1, h2, h3, h4, h5, h6, ?_, ?_, rfl, rfl, rfl, rfl⟩
  · intro i hi
    exact ensureRoot_of_present c i hi
  · intro i hi
    simp [ensureRoot, hi, insert_one]

/-- C9 witness: starting from the empty store. -/
theorem claim_C9_witness :
    (([] : List AdminNodeDoc).map AdminNodeDoc.oid).Nodup ∧
    ((create_system_admin_roots []).filter
      (fun d => d.oid = PUBLIC_ROOT_ID)).length = 1 ∧
    ((create_system_admin_roots []).filter
      (fun d => d.oid = SUPER_ROOT_ID)).length = 1 :=
  ⟨by decide,
    (claim_C9_singleton_roots [] (by decide)).1,
    (claim_C9_singleton_roots [] (by decide)).2.1⟩

end JacUtil
